import Mathlib

/-!
# Go-Balancer: peer selection and failover

A shallow embedding of `main.go` (package `main`) and proofs about it.

Conventions of the embedding.

* A `*Backend` is represented by the position of the backend in
  `ServerPool.backends`: the pool owns its backends, and the slice holds one
  pointer per backend.
* `ServerPool.current` is a `uint64`; every addition on it is taken modulo
  `2 ^ 64`.
* `len(s.backends)`, `next`, `l`, `i` and `idx` are Go `int`s.  They are
  natural numbers here: a slice of pointers held in memory has far fewer than
  `2 ^ 62` elements, so `next + len(s.backends)` stays below `2 ^ 63`, and the
  conversion `uint64(idx)` of the non-negative `idx` is value preserving.
* A run-time panic (integer division by zero, index out of range) is the
  `error` case of `Except Panic`.
* The program is embedded sequentially, by explicit state passing.  The
  `sync.RWMutex` embedded in a `Backend` is kept as a count of held read locks.
* The retry and attempt counters kept in the request context are Go `int`s that
  start at zero and grow by one per run of the error handler; they are natural
  numbers here.
* The error handler of `main` calls `GetRetryFromContext`,
  `GetAttemptsFromContext`, `MarkBackendStatus` and `lb`, and uses the context
  keys `Retry` and `Attempts`; `main.go` defines none of them.  Their
  definitions below follow the specification and say so.
* Concurrency is outside the sequential embedding.  The locking discipline of
  `IsAlive` and `SetAlive` alone is examined on the lists of their steps, run by
  two goroutines against a `sync.RWMutex` that admits many readers or one writer.
-/

namespace GoBalancer

deriving instance DecidableEq for Except

/-- Run-time panics of the Go program that the embedding keeps track of. -/
inductive Panic where
  | divideByZero
  | indexOutOfRange
  deriving DecidableEq, Repr

/-- The part of `sync.RWMutex` the program uses: the number of read locks held.
`Lock`/`Unlock` are never called in `main.go`. -/
structure RWMutex where
  readerCount : Nat
  deriving DecidableEq, Repr

/-- The method `RLock`: one more reader holds the lock. -/
def RWMutex.RLock (m : RWMutex) : RWMutex :=
  { m with readerCount := m.readerCount + 1 }

/-- The method `RUnlock`: one reader releases the lock. -/
def RWMutex.RUnlock (m : RWMutex) : RWMutex :=
  { m with readerCount := m.readerCount - 1 }

/-- The type `type Backend struct { sync.RWMutex; URL; Alive; ReverseProxy }`.
The URL is kept as its string form and the reverse proxy as an opaque handle. -/
structure Backend where
  mu : RWMutex
  URL : String
  Alive : Bool
  ReverseProxy : Nat
  deriving DecidableEq, Repr

/-- The type `type ServerPool struct { backends []*Backend; current uint64 }`. -/
structure ServerPool where
  backends : List Backend
  current : Nat
  deriving DecidableEq, Repr

/-- The method `func (b *Backend) IsAlive() (alive bool)`: read lock, read the flag, read
unlock.  Returns the flag and the backend as the call leaves it. -/
def Backend.IsAlive (b : Backend) : Bool × Backend :=
  let b1 := { b with mu := b.mu.RLock }
  let alive := b1.Alive
  let b2 := { b1 with mu := b1.mu.RUnlock }
  (alive, b2)

/-- The method `func (b *Backend) SetAlive(alive bool)`: read lock (sic), write the flag,
read unlock. -/
def Backend.SetAlive (b : Backend) (alive : Bool) : Backend :=
  let b1 := { b with mu := b.mu.RLock }
  let b2 := { b1 with Alive := alive }
  { b2 with mu := b2.mu.RUnlock }

/-- The method `func (s *ServerPool) NextIndex() int`:
`int(atomic.AddUint64(&s.current, 1) % uint64(len(s.backends)))`.
`AddUint64` stores and returns the new value; the modulo panics on an empty
pool. -/
def ServerPool.NextIndex (s : ServerPool) : Except Panic (Nat × ServerPool) :=
  let new := (s.current + 1) % 2 ^ 64
  let s1 := { s with current := new }
  if s1.backends.length = 0 then .error .divideByZero
  else .ok (new % s1.backends.length, s1)

/-- The `for i := next; i < l; i++` loop of `GetNextPeer`.  The first argument
after `next` is the number `l - i` of iterations that remain: the loop is left
with `nil` when it reaches zero. -/
def ServerPool.GetNextPeer.loop (next : Nat) :
    Nat → Nat → ServerPool → Except Panic (Option Nat × ServerPool)
  | 0, _, s => .ok (none, s)
  | n + 1, i, s =>
    if s.backends.length = 0 then .error .divideByZero
    else
      let idx := i % s.backends.length
      match s.backends[idx]? with
      | none => .error .indexOutOfRange
      | some b =>
        let (alive, b1) := b.IsAlive
        let s1 := { s with backends := s.backends.set idx b1 }
        if alive then
          if i ≠ next then .ok (some idx, { s1 with current := idx })
          else .ok (some idx, s1)
        else ServerPool.GetNextPeer.loop next n (i + 1) s1

/-- The method `func (s *ServerPool) GetNextPeer() *Backend`.  The result is the index of
the returned backend, or `none` for `nil`, and the pool as the call leaves
it. -/
def ServerPool.GetNextPeer (s : ServerPool) : Except Panic (Option Nat × ServerPool) :=
  match s.NextIndex with
  | .error e => .error e
  | .ok (next, s1) =>
    let l := next + s1.backends.length
    ServerPool.GetNextPeer.loop next (l - next) next s1

/-- The backend at index `j` is in the pool and its `Alive` flag is set. -/
def ServerPool.aliveAt (s : ServerPool) (j : Nat) : Bool :=
  match s.backends[j]? with
  | some b => b.Alive
  | none => false

/-- Runs `k` consecutive `GetNextPeer` calls and collects what they return. -/
def ServerPool.calls : Nat → ServerPool → Except Panic (List (Option Nat) × ServerPool)
  | 0, s => .ok ([], s)
  | k + 1, s =>
    match s.GetNextPeer with
    | .error e => .error e
    | .ok (p, s1) =>
      match ServerPool.calls k s1 with
      | .error e => .error e
      | .ok (ps, s2) => .ok (p :: ps, s2)

/-- The indices of the alive backends, in increasing order. -/
def ServerPool.aliveIndices (s : ServerPool) : List Nat :=
  (List.range s.backends.length).filter s.aliveAt

/-- None of the next `k` consecutive `GetNextPeer` calls wraps the 64-bit cursor:
before each of them the stored cursor is below `2 ^ 64 - 1`. -/
def ServerPool.cursorNoWrap : Nat → ServerPool → Bool
  | 0, _ => true
  | k + 1, s =>
    decide (s.current + 1 < 2 ^ 64) &&
      match s.GetNextPeer with
      | .error _ => true
      | .ok (_, s1) => ServerPool.cursorNoWrap k s1

/-- The call `s.backends[j].SetAlive(alive)`, seen from the pool that owns the
backend. -/
def ServerPool.setAliveAt (s : ServerPool) (j : Nat) (alive : Bool) : ServerPool :=
  match s.backends[j]? with
  | some b => { s with backends := s.backends.set j (b.SetAlive alive) }
  | none => s

/-- What `LoadBalance` does with the response writer: it hands the request to
the reverse proxy of the selected peer, or writes an error itself. -/
inductive Served where
  | serveHTTP (peer : Nat)
  | httpError (msg : String) (code : Nat)
  deriving DecidableEq, Repr

/-- The handler `func LoadBalance(w http.ResponseWriter, r *http.Request)` on the global
`serverPool`; `http.StatusServiceUnavailable` is 503. -/
def LoadBalance (serverPool : ServerPool) : Except Panic (Served × ServerPool) :=
  match serverPool.GetNextPeer with
  | .error e => .error e
  | .ok (some peer, s1) => .ok (.serveHTTP peer, s1)
  | .ok (none, s1) => .ok (.httpError "Service not avaliable" 503, s1)

/-- Modelled from the spec: the context keys `Retry` and `Attempts`, which
`main.go` uses without declaring them; they name the two counters of the
Request Retry State. -/
inductive CtxKey where
  | Retry
  | Attempts
  deriving DecidableEq, Repr

/-- The part of `*http.Request` the failover code uses: the values stored in
the request context, most recent first, and the cancellation signal of the
context. -/
structure Request where
  values : List (CtxKey × Nat)
  done : Bool
  deriving DecidableEq, Repr

/-- A request as it enters the system: nothing stored in its context. -/
def Request.fresh : Request :=
  { values := [], done := false }

/-- The lookup `request.Context().Value(key)`: the most recent value stored under `key`. -/
def Request.Value (request : Request) (key : CtxKey) : Option Nat :=
  (request.values.find? (fun kv => kv.1 = key)).map (fun kv => kv.2)

/-- The request `request.WithContext(context.WithValue(request.Context(), key, val))`. -/
def Request.WithValue (request : Request) (key : CtxKey) (val : Nat) : Request :=
  { request with values := (key, val) :: request.values }

/-- Modelled from the spec: `GetRetryFromContext`, called by the error handler
and not defined in `main.go`.  It reads the retry count of the Request Retry
State, which is zero for a fresh request. -/
def GetRetryFromContext (request : Request) : Nat :=
  (request.Value .Retry).getD 0

/-- Modelled from the spec: `GetAttemptsFromContext`, called by the error
handler and not defined in `main.go`.  It reads the attempt count of the
Request Retry State, which is zero for a fresh request. -/
def GetAttemptsFromContext (request : Request) : Nat :=
  (request.Value .Attempts).getD 0

/-- Modelled from the spec: `ServerPool.MarkBackendStatus`, called by the error
handler and not defined in `main.go`.  It sets the liveness of the backend with
the given address through `SetAlive`. -/
def ServerPool.MarkBackendStatus (s : ServerPool) (backendUrl : String) (alive : Bool) :
    ServerPool :=
  { s with backends := s.backends.map fun b => if b.URL = backendUrl then b.SetAlive alive else b }

/-- The call with which the error handler ends. -/
inductive HandlerCall where
  | proxyServeHTTP (request : Request)
  | lb (request : Request)
  deriving DecidableEq, Repr

/-- The closure `proxy.ErrorHandler` of `main`, for the proxy built for
`serverUrl`.  It ends either with `proxy.ServeHTTP(writer, request.WithContext(ctx))`
on its own proxy, after the 10 ms wait, or, once the backend is marked down,
with `lb(writer, request.WithContext(ctx))`. -/
def ErrorHandler (serverUrl : String) (serverPool : ServerPool) (request : Request) :
    HandlerCall × ServerPool :=
  let retries := GetRetryFromContext request
  if retries < 3 then
    let ctx := request.WithValue .Retry (retries + 1)
    (.proxyServeHTTP ctx, serverPool)
  else
    let serverPool1 := serverPool.MarkBackendStatus serverUrl false
    let attempts := GetAttemptsFromContext request
    let ctx := request.WithValue .Attempts (attempts + 1)
    (.lb ctx, serverPool1)

/-- What can be observed while one request is served. -/
inductive Event where
  | forward (peer : Nat) (request : Request) (failed : Bool)
  | markedDown (serverUrl : String)
  | lb (request : Request)
  | httpError (code : Nat)
  | panicked (p : Panic)
  deriving DecidableEq, Repr

/-- Modelled from the spec: the forwarding handle `ReverseProxy.ServeHTTP` of the
backend `peer` (net/http/httputil, outside `main.go`) together with `lb`, the
top-level routing entry point the error handler re-dispatches through, which
`main.go` does not define and which is `LoadBalance`.  One forwarding attempt is
made; when it fails, the error handler of that proxy runs exactly once.  The
list gives, attempt by attempt, whether forwarding fails; when it is used up
forwarding succeeds. -/
def ServeHTTP : List Bool → Nat → ServerPool → Request → List Event × ServerPool
  | [], peer, s, request => ([.forward peer request false], s)
  | false :: _, peer, s, request => ([.forward peer request false], s)
  | true :: fails, peer, s, request =>
    match s.backends[peer]? with
    | none => ([.forward peer request true, .panicked .indexOutOfRange], s)
    | some b =>
      match ErrorHandler b.URL s request with
      | (.proxyServeHTTP request1, s1) =>
        let (evs, s2) := ServeHTTP fails peer s1 request1
        (.forward peer request true :: evs, s2)
      | (.lb request1, s1) =>
        match LoadBalance s1 with
        | .error p =>
          ([.forward peer request true, .markedDown b.URL, .lb request1, .panicked p], s1)
        | .ok (.httpError _ code, s2) =>
          ([.forward peer request true, .markedDown b.URL, .lb request1, .httpError code], s2)
        | .ok (.serveHTTP peer1, s2) =>
          let (evs, s3) := ServeHTTP fails peer1 s2 request1
          (.forward peer request true :: .markedDown b.URL :: .lb request1 :: evs, s3)

/-- The number of alive slots among the positions `0, ..., x - 1` of the cyclic
scan order, position `i` standing for the backend at index `i mod N`. -/
def ServerPool.aliveBefore (s : ServerPool) : Nat → Nat
  | 0 => 0
  | x + 1 => ServerPool.aliveBefore s x + if s.aliveAt (x % s.backends.length) then 1 else 0

/-- The global `var serverPool ServerPool` with its zero value: `main.go` never
adds a backend to it. -/
def serverPool : ServerPool :=
  { backends := [], current := 0 }

/-- The indices with which the loop of `GetNextPeer` reads `s.backends`, in the
order of the reads: the loop of `ServerPool.GetNextPeer.loop` with the value of
`idx` recorded at each iteration. -/
def ServerPool.GetNextPeer.examined (next : Nat) : Nat → Nat → ServerPool → List Nat
  | 0, _, _ => []
  | n + 1, i, s =>
    if s.backends.length = 0 then []
    else
      let idx := i % s.backends.length
      match s.backends[idx]? with
      | none => [idx]
      | some b =>
        let (alive, b1) := b.IsAlive
        let s1 := { s with backends := s.backends.set idx b1 }
        if alive then [idx]
        else idx :: ServerPool.GetNextPeer.examined next n (i + 1) s1

/-- The indices with which one `GetNextPeer` call reads `s.backends`. -/
def ServerPool.examinedBy (s : ServerPool) : List Nat :=
  match s.NextIndex with
  | .error _ => []
  | .ok (next, s1) =>
    let l := next + s1.backends.length
    ServerPool.GetNextPeer.examined next (l - next) next s1

/-- One step of a goroutine inside `IsAlive` or `SetAlive`: a call on the mutex
embedded in the backend, or an access to the `Alive` field. -/
inductive Step where
  | RLock
  | RUnlock
  | Lock
  | Unlock
  | readAlive
  | writeAlive (alive : Bool)
  deriving DecidableEq, Repr

/-- The steps of `IsAlive` in program order: `b.RLock()`, `alive = b.Alive`,
`b.RUnlock()`. -/
def Backend.IsAlive.steps : List Step :=
  [.RLock, .readAlive, .RUnlock]

/-- The steps of `SetAlive(alive)` in program order: `b.RLock()`,
`b.Alive = alive`, `b.RUnlock()`. -/
def Backend.SetAlive.steps (alive : Bool) : List Step :=
  [.RLock, .writeAlive alive, .RUnlock]

/-- The steps of `setAlive` as the specification words it, "sets liveness under
an exclusive lock": lock, write the flag, unlock. -/
def exclusiveSetAliveSteps (alive : Bool) : List Step :=
  [.Lock, .writeAlive alive, .Unlock]

/-- What a step does to the backend when no other goroutine runs: the read-lock
calls count the readers, a write sets the flag, and the other steps leave the
backend as it is. -/
def Step.apply : Step → Backend → Backend
  | .RLock, b => { b with mu := b.mu.RLock }
  | .RUnlock, b => { b with mu := b.mu.RUnlock }
  | .writeAlive alive, b => { b with Alive := alive }
  | .Lock, b => b
  | .Unlock, b => b
  | .readAlive, b => b

/-- The mutex of one backend as concurrent goroutines see it: how many of them
hold the read lock, and whether one holds the write lock. -/
structure SharedMutex where
  readers : Nat
  writer : Bool
  deriving DecidableEq, Repr

/-- Whether the mutex lets a step through, and the state it is in afterwards;
`none` when the calling goroutine has to wait (or, for an unlock without a lock,
fails).  This is `sync.RWMutex`: the lock is held by any number of readers or by
a single writer.  Accesses to the flag do not involve the mutex. -/
def SharedMutex.grant (m : SharedMutex) : Step → Option SharedMutex
  | .RLock => if m.writer then none else some { m with readers := m.readers + 1 }
  | .RUnlock => if m.readers = 0 then none else some { m with readers := m.readers - 1 }
  | .Lock => if m.writer || decide (m.readers ≠ 0) then none else some { m with writer := true }
  | .Unlock => if m.writer then some { m with writer := false } else none
  | .readAlive => some m
  | .writeAlive _ => some m

/-- A goroutine that runs `IsAlive` or `SetAlive` on the backend: the steps it
has still to make, and whether it holds the mutex at the moment. -/
structure Goroutine where
  steps : List Step
  holds : Bool
  deriving DecidableEq, Repr

/-- A goroutine about to make the given steps. -/
def Goroutine.start (steps : List Step) : Goroutine :=
  { steps := steps, holds := false }

/-- The goroutine makes its next step: `none` when it has none left or the mutex
makes it wait. -/
def Goroutine.step (m : SharedMutex) (g : Goroutine) : Option (SharedMutex × Goroutine × Step) :=
  match g.steps with
  | [] => none
  | st :: rest =>
    match m.grant st with
    | none => none
    | some m1 =>
      let holds :=
        match st with
        | .RLock => true
        | .Lock => true
        | .RUnlock => false
        | .Unlock => false
        | .readAlive => g.holds
        | .writeAlive _ => g.holds
      some (m1, { steps := rest, holds := holds }, st)

/-- Whether the step writes the `Alive` flag. -/
def Step.isWrite : Step → Bool
  | .writeAlive _ => true
  | _ => false

/-- Two goroutines run on one backend; the schedule says which of them (`false`
the first, `true` the second) makes the next step.  The result is `none` when
the schedule cannot happen, because the goroutine it names has to wait or has
finished; otherwise it says whether at some moment one goroutine wrote the
`Alive` flag while the other one held the mutex. -/
def interleave : List Bool → SharedMutex → Goroutine → Goroutine → Option Bool
  | [], _, _, _ => some false
  | false :: schedule, m, g0, g1 =>
    match g0.step m with
    | none => none
    | some (m1, g0a, st) =>
      match interleave schedule m1 g0a g1 with
      | none => none
      | some overlap => some (overlap || (st.isWrite && g1.holds))
  | true :: schedule, m, g0, g1 =>
    match g1.step m with
    | none => none
    | some (m1, g1a, st) =>
      match interleave schedule m1 g0 g1a with
      | none => none
      | some overlap => some (overlap || (st.isWrite && g0.holds))

/-- All schedules of the given length. -/
def schedules : Nat → List (List Bool)
  | 0 => [[]]
  | n + 1 => (schedules n).map (fun sch => false :: sch) ++
      (schedules n).map (fun sch => true :: sch)

/-- A backend with an unlocked mutex, as built at startup. -/
def mkBackend (url : String) (alive : Bool) (proxy : Nat) : Backend :=
  { mu := { readerCount := 0 }, URL := url, Alive := alive, ReverseProxy := proxy }

/-! ## Basic facts about the selector -/

theorem Backend.IsAlive_eq (b : Backend) : b.IsAlive = (b.Alive, b) := by
  cases b
  simp [Backend.IsAlive, RWMutex.RLock, RWMutex.RUnlock]

theorem ServerPool.aliveAt_eq (s : ServerPool) (j : Nat) (b : Backend)
    (h : s.backends[j]? = some b) : s.aliveAt j = b.Alive := by
  simp [ServerPool.aliveAt, h]

theorem ServerPool.set_self (s : ServerPool) (j : Nat) (b : Backend)
    (h : s.backends[j]? = some b) : s.backends.set j b = s.backends := by
  apply List.ext_getElem?
  intro m
  by_cases hm : j = m
  · subst hm
    have hj : j < s.backends.length := by
      by_contra hc
      rw [List.getElem?_eq_none (Nat.le_of_not_lt hc)] at h
      cases h
    simp [List.getElem?_set, h, hj]
  · simp [List.getElem?_set, hm]

/-- What the scanning loop computes on a non-empty pool: either every scanned
slot is dead and the pool is returned untouched with `nil`, or the first alive
slot in scan order is returned and the cursor is stored when it was not the
first candidate. -/
theorem ServerPool.GetNextPeer.loop_spec (next : Nat) (s : ServerPool)
    (hN : 0 < s.backends.length) (n : Nat) :
    ∀ i : Nat,
      ((∀ k, k < n → s.aliveAt ((i + k) % s.backends.length) = false) ∧
        ServerPool.GetNextPeer.loop next n i s = .ok (none, s)) ∨
      ∃ k, k < n ∧ s.aliveAt ((i + k) % s.backends.length) = true ∧
        (∀ j, j < k → s.aliveAt ((i + j) % s.backends.length) = false) ∧
        ServerPool.GetNextPeer.loop next n i s =
          .ok (some ((i + k) % s.backends.length),
            if i + k ≠ next then { s with current := (i + k) % s.backends.length } else s) := by
  induction n with
  | zero =>
    intro i
    left
    exact ⟨fun k hk => absurd hk (Nat.not_lt_zero k), rfl⟩
  | succ n ih =>
    intro i
    have hne : s.backends.length ≠ 0 := Nat.pos_iff_ne_zero.mp hN
    have hlt : i % s.backends.length < s.backends.length := Nat.mod_lt _ hN
    obtain ⟨b, hb⟩ : ∃ b, s.backends[i % s.backends.length]? = some b :=
      ⟨s.backends[i % s.backends.length], List.getElem?_eq_getElem hlt⟩
    have hal := s.aliveAt_eq _ b hb
    have hset := s.set_self _ b hb
    have hloop : ServerPool.GetNextPeer.loop next (n + 1) i s =
        if b.Alive = true then
          (if i ≠ next then .ok (some (i % s.backends.length),
              { s with current := i % s.backends.length })
            else .ok (some (i % s.backends.length), s))
        else ServerPool.GetNextPeer.loop next n (i + 1) s := by
      rw [ServerPool.GetNextPeer.loop]
      simp only [hne, if_false, hb, Backend.IsAlive_eq, hset]
    by_cases hA : b.Alive = true
    · right
      refine ⟨0, Nat.succ_pos n, ?_, fun j hj => absurd hj (Nat.not_lt_zero j), ?_⟩
      · simpa [hal] using hA
      · rw [hloop]
        by_cases hi : i = next <;> simp [hA, hi]
    · have hA' : b.Alive = false := by simpa using hA
      rw [hloop]
      simp only [hA', Bool.false_eq_true, if_false]
      rcases ih (i + 1) with ⟨hdead, hres⟩ | ⟨k, hk, hka, hkd, hres⟩
      · left
        refine ⟨?_, hres⟩
        intro k hk
        cases k with
        | zero => simpa [hal] using hA'
        | succ k =>
          have := hdead k (Nat.lt_of_succ_lt_succ hk)
          rwa [show i + 1 + k = i + (k + 1) by omega] at this
      · right
        refine ⟨k + 1, Nat.succ_lt_succ hk, ?_, ?_, ?_⟩
        · rwa [show i + 1 + k = i + (k + 1) by omega] at hka
        · intro j hj
          cases j with
          | zero => simpa [hal] using hA'
          | succ j =>
            have := hkd j (Nat.lt_of_succ_lt_succ hj)
            rwa [show i + 1 + j = i + (j + 1) by omega] at this
        · rw [hres, show i + 1 + k = i + (k + 1) by omega]

/-- A scan of `N` consecutive positions meets every index of the pool. -/
theorem scan_covers (N next j : Nat) (hj : j < N) :
    ∃ k, k < N ∧ (next + k) % N = j := by
  have hN : 0 < N := Nat.lt_of_le_of_lt (Nat.zero_le j) hj
  have hr : next % N < N := Nat.mod_lt _ hN
  refine ⟨(j + N - next % N) % N, Nat.mod_lt _ hN, ?_⟩
  rw [Nat.add_mod_mod]
  have hd : N * (next / N) + next % N = next := Nat.div_add_mod next N
  generalize N * (next / N) = t at hd
  have he : next + (j + N - next % N) = j + N + t := by omega
  have ht : t % N = 0 := by
    have : t = next - next % N := by omega
    rw [this]
    exact Nat.sub_mod_eq_zero_of_mod_eq (by rw [Nat.mod_mod])
  rw [he, Nat.add_mod, ht, Nat.add_zero, Nat.mod_mod, Nat.add_mod_right]
  exact Nat.mod_eq_of_lt hj

theorem ServerPool.aliveAt_false_iff (s : ServerPool) :
    (∀ j, j < s.backends.length → s.aliveAt j = false) ↔
      ∀ b, b ∈ s.backends → b.Alive = false := by
  constructor
  · intro h b hb
    obtain ⟨j, hj, rfl⟩ := List.getElem_of_mem hb
    have := h j hj
    rwa [s.aliveAt_eq j _ (List.getElem?_eq_getElem hj)] at this
  · intro h j hj
    rw [s.aliveAt_eq j _ (List.getElem?_eq_getElem hj)]
    exact h _ (List.getElem_mem hj)

/-- What `GetNextPeer` computes on a non-empty pool, with
`next = ((current + 1) mod 2^64) mod N`. -/
theorem ServerPool.GetNextPeer_spec (s : ServerPool) (hN : 0 < s.backends.length) :
    ((∀ k, k < s.backends.length →
          s.aliveAt (((s.current + 1) % 2 ^ 64 % s.backends.length + k) % s.backends.length)
            = false) ∧
        s.GetNextPeer = .ok (none, { s with current := (s.current + 1) % 2 ^ 64 })) ∨
      ∃ k, k < s.backends.length ∧
        s.aliveAt (((s.current + 1) % 2 ^ 64 % s.backends.length + k) % s.backends.length)
          = true ∧
        (∀ j, j < k →
          s.aliveAt (((s.current + 1) % 2 ^ 64 % s.backends.length + j) % s.backends.length)
            = false) ∧
        s.GetNextPeer =
          .ok (some (((s.current + 1) % 2 ^ 64 % s.backends.length + k) % s.backends.length),
            if k ≠ 0 then
              { s with current :=
                  ((s.current + 1) % 2 ^ 64 % s.backends.length + k) % s.backends.length }
            else { s with current := (s.current + 1) % 2 ^ 64 }) := by
  have hne : s.backends.length ≠ 0 := Nat.pos_iff_ne_zero.mp hN
  have hG : s.GetNextPeer =
      ServerPool.GetNextPeer.loop ((s.current + 1) % 2 ^ 64 % s.backends.length)
        s.backends.length ((s.current + 1) % 2 ^ 64 % s.backends.length)
        { s with current := (s.current + 1) % 2 ^ 64 } := by
    simp [ServerPool.GetNextPeer, ServerPool.NextIndex, hne]
  have hspec := ServerPool.GetNextPeer.loop_spec
    ((s.current + 1) % 2 ^ 64 % s.backends.length)
    { s with current := (s.current + 1) % 2 ^ 64 } hN s.backends.length
    ((s.current + 1) % 2 ^ 64 % s.backends.length)
  have hal : ∀ j, ({ s with current := (s.current + 1) % 2 ^ 64 } : ServerPool).aliveAt j
      = s.aliveAt j := fun j => rfl
  simp only [hal] at hspec
  rcases hspec with ⟨hdead, hres⟩ | ⟨k, hk, hka, hkd, hres⟩
  · left
    exact ⟨hdead, hG.trans hres⟩
  · right
    refine ⟨k, hk, hka, hkd, ?_⟩
    rw [hG, hres]
    by_cases hk0 : k = 0
    · simp [hk0]
    · have : (s.current + 1) % 2 ^ 64 % s.backends.length + k
          ≠ (s.current + 1) % 2 ^ 64 % s.backends.length := by omega
      simp [hk0, this]

/-- On a non-empty pool `GetNextPeer` returns: it does not panic. -/
theorem ServerPool.GetNextPeer_returns (s : ServerPool) (hN : 0 < s.backends.length) :
    ∃ r, s.GetNextPeer = .ok r ∧ r.2.backends = s.backends := by
  rcases s.GetNextPeer_spec hN with ⟨_, hres⟩ | ⟨k, _, _, _, hres⟩
  · exact ⟨_, hres, rfl⟩
  · refine ⟨_, hres, ?_⟩
    by_cases hk0 : k = 0 <;> simp [hk0]

/-- A returned index is in range, alive, and congruent to the stored cursor. -/
theorem ServerPool.GetNextPeer_some (s : ServerPool) (idx : Nat) (s1 : ServerPool)
    (h : s.GetNextPeer = .ok (some idx, s1)) :
    idx < s.backends.length ∧ s.aliveAt idx = true ∧ s1.backends = s.backends ∧
      s1.current % s.backends.length = idx := by
  have hN : 0 < s.backends.length := by
    by_contra hc
    have h0 : s.backends.length = 0 := by omega
    simp [ServerPool.GetNextPeer, ServerPool.NextIndex, h0] at h
  rcases s.GetNextPeer_spec hN with ⟨_, hres⟩ | ⟨k, _, hka, _, hres⟩
  · rw [hres] at h
    simp at h
  · rw [hres] at h
    simp only [Except.ok.injEq, Prod.mk.injEq, Option.some.injEq] at h
    obtain ⟨h1, h2⟩ := h
    subst h1
    refine ⟨Nat.mod_lt _ hN, hka, ?_, ?_⟩
    · subst h2
      by_cases hk0 : k = 0 <;> simp [hk0]
    · subst h2
      by_cases hk0 : k = 0
      · simp [hk0]
      · simp [hk0]

/-- The call `GetNextPeer` returns `nil` exactly when every backend is dead. -/
theorem ServerPool.GetNextPeer_none_iff (s : ServerPool) (hN : 0 < s.backends.length) :
    (∃ s1, s.GetNextPeer = .ok (none, s1)) ↔ ∀ b, b ∈ s.backends → b.Alive = false := by
  rw [← s.aliveAt_false_iff]
  constructor
  · rintro ⟨s1, h⟩ j hj
    rcases s.GetNextPeer_spec hN with ⟨hdead, _⟩ | ⟨k, _, _, _, hres⟩
    · obtain ⟨k, hk, hkj⟩ := scan_covers s.backends.length
        ((s.current + 1) % 2 ^ 64 % s.backends.length) j hj
      have := hdead k hk
      rwa [hkj] at this
    · rw [hres] at h
      simp at h
  · intro hdead
    rcases s.GetNextPeer_spec hN with ⟨_, hres⟩ | ⟨k, _, hka, _, _⟩
    · exact ⟨_, hres⟩
    · rw [hdead _ (Nat.mod_lt _ hN)] at hka
      cases hka

theorem ServerPool.aliveAt_congr (s s1 : ServerPool) (h : s1.backends = s.backends) (j : Nat) :
    s1.aliveAt j = s.aliveAt j := by
  simp [ServerPool.aliveAt, h]

/-- When some backend is alive, `GetNextPeer` returns a backend. -/
theorem ServerPool.GetNextPeer_exists_some (s : ServerPool) (j : Nat)
    (hj : j < s.backends.length) (hal : s.aliveAt j = true) :
    ∃ idx s1, s.GetNextPeer = .ok (some idx, s1) := by
  have hN : 0 < s.backends.length := Nat.lt_of_le_of_lt (Nat.zero_le j) hj
  rcases s.GetNextPeer_spec hN with ⟨hdead, _⟩ | ⟨k, _, _, _, hres⟩
  · obtain ⟨k, hk, hkj⟩ := scan_covers s.backends.length
      ((s.current + 1) % 2 ^ 64 % s.backends.length) j hj
    have := hdead k hk
    rw [hkj, hal] at this
    cases this
  · exact ⟨_, _, hres⟩

/-! ## Counting alive slots along the cyclic scan -/

theorem ServerPool.aliveBefore_mono (s : ServerPool) (x y : Nat) (h : x ≤ y) :
    s.aliveBefore x ≤ s.aliveBefore y := by
  induction y with
  | zero =>
    have : x = 0 := Nat.le_zero.mp h
    subst this
    exact Nat.le_refl _
  | succ y ih =>
    rcases Nat.lt_or_ge x (y + 1) with hlt | hge
    · exact Nat.le_trans (ih (Nat.lt_succ_iff.mp hlt)) (Nat.le_add_right _ _)
    · have : x = y + 1 := Nat.le_antisymm h hge
      subst this
      exact Nat.le_refl _

theorem ServerPool.aliveBefore_alive (s : ServerPool) (x : Nat)
    (h : s.aliveAt (x % s.backends.length) = true) :
    s.aliveBefore (x + 1) = s.aliveBefore x + 1 := by
  simp [ServerPool.aliveBefore, h]

theorem ServerPool.aliveBefore_dead (s : ServerPool) (p k : Nat)
    (h : ∀ j, j < k → s.aliveAt ((p + j) % s.backends.length) = false) :
    s.aliveBefore (p + k) = s.aliveBefore p := by
  induction k with
  | zero => rfl
  | succ k ih =>
    have hk := h k (Nat.lt_succ_self k)
    have := ih (fun j hj => h j (Nat.lt_succ_of_lt hj))
    rw [← Nat.add_assoc, ServerPool.aliveBefore, hk, this]
    simp

theorem ServerPool.aliveBefore_period (s : ServerPool) (x : Nat) :
    s.aliveBefore (x + s.backends.length) = s.aliveBefore x + s.aliveBefore s.backends.length := by
  induction x with
  | zero => simp [ServerPool.aliveBefore]
  | succ x ih =>
    rw [show x + 1 + s.backends.length = (x + s.backends.length) + 1 by omega,
      ServerPool.aliveBefore, ih, Nat.add_mod_right, ServerPool.aliveBefore]
    omega

theorem ServerPool.aliveBefore_period_mul (s : ServerPool) (x q : Nat) :
    s.aliveBefore (x + s.backends.length * q) =
      s.aliveBefore x + q * s.aliveBefore s.backends.length := by
  induction q with
  | zero => simp
  | succ q ih =>
    rw [Nat.mul_succ, ← Nat.add_assoc, s.aliveBefore_period, ih, Nat.succ_mul]
    omega

theorem ServerPool.aliveBefore_eq_filter (s : ServerPool) (x : Nat) :
    s.aliveBefore x =
      ((List.range x).filter fun i => s.aliveAt (i % s.backends.length)).length := by
  induction x with
  | zero => rfl
  | succ x ih =>
    rw [ServerPool.aliveBefore, ih, List.range_succ, List.filter_append, List.length_append]
    by_cases h : s.aliveAt (x % s.backends.length) = true
    · simp [List.filter, h]
    · simp [List.filter, h]

theorem ServerPool.aliveBefore_length (s : ServerPool) :
    s.aliveBefore s.backends.length = s.aliveIndices.length := by
  rw [s.aliveBefore_eq_filter, ServerPool.aliveIndices]
  congr 1
  apply List.filter_congr
  intro i hi
  rw [Nat.mod_eq_of_lt (List.mem_range.mp hi)]

theorem ServerPool.mem_aliveIndices (s : ServerPool) (j : Nat) :
    j ∈ s.aliveIndices ↔ j < s.backends.length ∧ s.aliveAt j = true := by
  simp [ServerPool.aliveIndices]

/-- Two positions of the scan order whose alive counts differ by less than the
number of alive backends stand for different backends. -/
theorem ServerPool.distinct_mod (s : ServerPool) (x y d : Nat)
    (hxy : s.aliveBefore (y + 1) = s.aliveBefore (x + 1) + d) (hd0 : 0 < d)
    (hdm : d < s.aliveBefore s.backends.length) :
    x % s.backends.length ≠ y % s.backends.length := by
  intro hmod
  have hlt : x < y := by
    by_contra hc
    have := s.aliveBefore_mono (y + 1) (x + 1) (by omega)
    omega
  have hz : (y - x) % s.backends.length = 0 := Nat.sub_mod_eq_zero_of_mod_eq hmod.symm
  obtain ⟨q, hq⟩ := Nat.dvd_of_mod_eq_zero hz
  have hq0 : 0 < q := by
    rcases Nat.eq_zero_or_pos q with h0 | h0
    · subst h0
      simp at hq
      omega
    · exact h0
  have hy : y + 1 = (x + 1) + s.backends.length * q := by omega
  have hper := s.aliveBefore_period_mul (x + 1) q
  rw [← hy] at hper
  have hle : s.aliveBefore s.backends.length ≤ q * s.aliveBefore s.backends.length :=
    Nat.le_mul_of_pos_left _ hq0
  omega

/-- Consecutive calls walk through consecutive alive positions of the scan
order: from a pool whose next starting index is `p mod N`, the `i`-th of `t`
calls returns position `vs[i]`, an alive slot with exactly `i` alive slots
between `p` and it. -/
theorem ServerPool.calls_chain (s0 : ServerPool)
    (hex : ∃ j, j < s0.backends.length ∧ s0.aliveAt j = true) (t : Nat) :
    ∀ (s : ServerPool) (p : Nat), s.backends = s0.backends → s.cursorNoWrap t = true →
      (s.current + 1) % s0.backends.length = p % s0.backends.length →
      ∃ (vs : List Nat) (s1 : ServerPool),
        s.calls t = .ok (vs.map (fun v => some (v % s0.backends.length)), s1) ∧
        vs.length = t ∧ s1.backends = s0.backends ∧
        ∀ i (hi : i < vs.length), s0.aliveAt (vs[i] % s0.backends.length) = true ∧
          s0.aliveBefore (vs[i] + 1) = s0.aliveBefore p + (i + 1) := by
  obtain ⟨j0, hj0, hal0⟩ := hex
  have hN : 0 < s0.backends.length := Nat.lt_of_le_of_lt (Nat.zero_le j0) hj0
  induction t with
  | zero =>
    intro s p hb _ _
    exact ⟨[], s, rfl, rfl, hb, fun i hi => absurd hi (Nat.not_lt_zero i)⟩
  | succ t ih =>
    intro s p hb hnw hp
    have hNs : 0 < s.backends.length := by rw [hb]; exact hN
    have hspec := s.GetNextPeer_spec hNs
    simp only [ServerPool.cursorNoWrap, Bool.and_eq_true, decide_eq_true_eq] at hnw
    obtain ⟨hc, hnw1⟩ := hnw
    have hmod : ∀ j, ((s.current + 1) % s0.backends.length + j) % s0.backends.length
        = (p + j) % s0.backends.length := by
      intro j
      rw [hp, Nat.mod_add_mod]
    simp only [s0.aliveAt_congr s hb, hb, Nat.mod_eq_of_lt hc, hmod] at hspec
    rcases hspec with ⟨hdead, _⟩ | ⟨k, hk, hka, hkd, hres⟩
    · obtain ⟨k, hk, hkj⟩ := scan_covers s0.backends.length p j0 hj0
      have := hdead k hk
      rw [hkj, hal0] at this
      cases this
    · rw [hres] at hnw1
      simp only at hnw1
      have hnext : ∀ c : Nat, c % s0.backends.length = (p + k) % s0.backends.length →
          (c + 1) % s0.backends.length = (p + k + 1) % s0.backends.length := by
        intro c hcm
        rw [Nat.add_mod c 1, hcm, ← Nat.add_mod]
      have hcount : s0.aliveBefore (p + k + 1) = s0.aliveBefore p + 1 := by
        rw [s0.aliveBefore_alive (p + k) hka, s0.aliveBefore_dead p k hkd]
      have hstep : ∀ s2 : ServerPool, s2.backends = s0.backends →
          s2.current % s0.backends.length = (p + k) % s0.backends.length →
          s2.cursorNoWrap t = true →
          s.GetNextPeer = .ok (some ((p + k) % s0.backends.length), s2) →
          ∃ (vs : List Nat) (s1 : ServerPool), s.calls (t + 1) =
              .ok (vs.map (fun v => some (v % s0.backends.length)), s1) ∧
            vs.length = t + 1 ∧ s1.backends = s0.backends ∧
            ∀ i (hi : i < vs.length), s0.aliveAt (vs[i] % s0.backends.length) = true ∧
              s0.aliveBefore (vs[i] + 1) = s0.aliveBefore p + (i + 1) := by
        intro s2 hb2 hc2 hnw2 hres2
        obtain ⟨vs, s1, hcalls, hlen, hb1, hprop⟩ :=
          ih s2 (p + k + 1) hb2 hnw2 (hnext _ hc2)
        refine ⟨(p + k) :: vs, s1, ?_, by simp [hlen], hb1, ?_⟩
        · simp [ServerPool.calls, hres2, hcalls]
        · intro i hi
          cases i with
          | zero => exact ⟨hka, by simpa using hcount⟩
          | succ i =>
            have hi1 : i < vs.length := by simpa using hi
            obtain ⟨h1, h2⟩ := hprop i hi1
            refine ⟨by simpa using h1, ?_⟩
            simp only [List.getElem_cons_succ]
            omega
      by_cases hk0 : k = 0
      · simp only [hk0, ne_eq, not_true_eq_false, if_false] at hres hnw1
        refine hstep { backends := s0.backends, current := s.current + 1 } rfl ?_ hnw1
          (by simpa [hk0] using hres)
        simp [hk0, hp]
      · simp only [hk0, ne_eq, not_false_eq_true, if_true] at hres hnw1
        exact hstep { backends := s0.backends, current := (p + k) % s0.backends.length } rfl
          (by simp) hnw1 hres

/-! ## The claims -/

/-- C1: on a pool with at least one backend, whatever the liveness flags and
the cursor, `GetNextPeer` returns, and when it returns a backend, that backend
is an element of the pool whose `Alive` flag is true (and the call has left the
backends as they were): a dead backend is never returned. -/
theorem GetNextPeer_returns_alive_member (s : ServerPool) (hN : 0 < s.backends.length) :
    (∃ r, s.GetNextPeer = .ok r) ∧
      ∀ idx s1, s.GetNextPeer = .ok (some idx, s1) →
        ∃ b, s.backends[idx]? = some b ∧ b ∈ s.backends ∧ b.Alive = true ∧
          s1.backends = s.backends := by
  refine ⟨?_, ?_⟩
  · obtain ⟨r, hr, _⟩ := s.GetNextPeer_returns hN
    exact ⟨r, hr⟩
  · intro idx s1 h
    obtain ⟨hlt, hal, hb, _⟩ := s.GetNextPeer_some idx s1 h
    have hget : s.backends[idx]? = some s.backends[idx] := List.getElem?_eq_getElem hlt
    refine ⟨s.backends[idx], hget, List.getElem_mem hlt, ?_, hb⟩
    rwa [s.aliveAt_eq idx _ hget] at hal

/-- Witness of C1: a pool of two backends, the first dead, with cursor 7. -/
theorem GetNextPeer_returns_alive_member_witness :
    ∃ b, [mkBackend "a" false 0, mkBackend "b" true 1][1]? = some b ∧
      b ∈ [mkBackend "a" false 0, mkBackend "b" true 1] ∧ b.Alive = true ∧
      (⟨[mkBackend "a" false 0, mkBackend "b" true 1], 1⟩ : ServerPool).backends =
        [mkBackend "a" false 0, mkBackend "b" true 1] :=
  (GetNextPeer_returns_alive_member ⟨[mkBackend "a" false 0, mkBackend "b" true 1], 7⟩
    (by decide)).2 1 ⟨[mkBackend "a" false 0, mkBackend "b" true 1], 1⟩ (by decide)

/-- C2: on a pool with at least one backend and any cursor, `GetNextPeer`
returns `nil` if and only if no backend of the pool is alive; and while every
backend is dead, each of any number `k` of consecutive calls returns `nil`. -/
theorem GetNextPeer_nil_iff_all_dead (s : ServerPool) (hN : 0 < s.backends.length) :
    ((∃ s1, s.GetNextPeer = .ok (none, s1)) ↔ ∀ b, b ∈ s.backends → b.Alive = false) ∧
      ((∀ b, b ∈ s.backends → b.Alive = false) →
        ∀ k, ∃ s1, s.calls k = .ok (List.replicate k none, s1) ∧
          s1.backends = s.backends) := by
  refine ⟨s.GetNextPeer_none_iff hN, ?_⟩
  intro hdead k
  induction k generalizing s with
  | zero => exact ⟨s, rfl, rfl⟩
  | succ k ih =>
    obtain ⟨s1, h1⟩ := (s.GetNextPeer_none_iff hN).mpr hdead
    obtain ⟨r, hr, hrb⟩ := s.GetNextPeer_returns hN
    have hb1 : s1.backends = s.backends := by
      rw [hr] at h1
      simp only [Except.ok.injEq] at h1
      rw [h1] at hrb
      exact hrb
    obtain ⟨s2, h2, hb2⟩ := ih s1 (by rw [hb1]; exact hN) (by rw [hb1]; exact hdead)
    refine ⟨s2, ?_, hb2.trans hb1⟩
    simp [ServerPool.calls, h1, h2, List.replicate_succ]

/-- Witness of C2: two dead backends, cursor 4, three consecutive calls. -/
theorem GetNextPeer_nil_iff_all_dead_witness :
    ∃ s1, (⟨[mkBackend "a" false 0, mkBackend "b" false 1], 4⟩ : ServerPool).calls 3
        = .ok (List.replicate 3 none, s1) ∧
      s1.backends = [mkBackend "a" false 0, mkBackend "b" false 1] :=
  (GetNextPeer_nil_iff_all_dead ⟨[mkBackend "a" false 0, mkBackend "b" false 1], 4⟩
    (by decide)).2 (by decide) 3

/-- C3: round-robin order modulo skips.  On a pool with at least one alive
backend and fixed liveness flags: if a `GetNextPeer` call returns the backend at
index `j`, the immediately following call (whose cursor increment does not wrap
`2 ^ 64`) returns the first alive backend met when scanning cyclically from
index `(j + 1) mod N`; and when the cursor does not wrap, `m` consecutive calls,
`m` being the number of alive backends, return each alive backend exactly once
(a duplicate-free list of length `m` that contains exactly the alive
indices). -/
theorem round_robin_modulo_skips (s : ServerPool)
    (hex : ∃ j, j < s.backends.length ∧ s.aliveAt j = true) :
    (∀ j s1, s.GetNextPeer = .ok (some j, s1) → s1.current + 1 < 2 ^ 64 →
        ∃ k s2, k < s.backends.length ∧
          s1.GetNextPeer =
            .ok (some (((j + 1) % s.backends.length + k) % s.backends.length), s2) ∧
          s.aliveAt (((j + 1) % s.backends.length + k) % s.backends.length) = true ∧
          ∀ i, i < k →
            s.aliveAt (((j + 1) % s.backends.length + i) % s.backends.length) = false) ∧
      (s.cursorNoWrap s.aliveIndices.length = true →
        ∃ (rs : List Nat) (s1 : ServerPool),
          s.calls s.aliveIndices.length = .ok (rs.map some, s1) ∧
          rs.length = s.aliveIndices.length ∧ rs.Nodup ∧
          (∀ j, j ∈ rs ↔ j < s.backends.length ∧ s.aliveAt j = true) ∧
          s1.backends = s.backends) := by
  have hex0 := hex
  obtain ⟨j0, hj0, hal0⟩ := hex
  have hN : 0 < s.backends.length := Nat.lt_of_le_of_lt (Nat.zero_le j0) hj0
  refine ⟨?_, ?_⟩
  · intro j s1 h1 hc
    obtain ⟨_, _, hb1, hcur⟩ := s.GetNextPeer_some j s1 h1
    have hspec := s1.GetNextPeer_spec (by rw [hb1]; exact hN)
    have hnext : (s1.current + 1) % s.backends.length = (j + 1) % s.backends.length := by
      rw [Nat.add_mod s1.current 1, hcur, Nat.add_mod_mod]
    simp only [s.aliveAt_congr s1 hb1, hb1, Nat.mod_eq_of_lt hc, hnext] at hspec
    rcases hspec with ⟨hdead, _⟩ | ⟨k, hk, hka, hkd, hres⟩
    · obtain ⟨k, hk, hkj⟩ := scan_covers s.backends.length
        ((j + 1) % s.backends.length) j0 hj0
      have := hdead k hk
      rw [hkj, hal0] at this
      cases this
    · exact ⟨k, _, hk, hres, hka, hkd⟩
  · intro hnw
    obtain ⟨vs, s1, hcalls, hlen, hb1, hprop⟩ :=
      s.calls_chain hex0 s.aliveIndices.length s (s.current + 1) rfl hnw rfl
    have hsub : ∀ r, r ∈ vs.map (fun v => v % s.backends.length) → r ∈ s.aliveIndices := by
      intro r hr
      obtain ⟨v, hv, rfl⟩ := List.mem_map.mp hr
      obtain ⟨i, hi, rfl⟩ := List.getElem_of_mem hv
      exact (s.mem_aliveIndices _).mpr ⟨Nat.mod_lt _ hN, (hprop i hi).1⟩
    have hnd : (vs.map (fun v => v % s.backends.length)).Nodup := by
      rw [List.Nodup, List.pairwise_iff_getElem]
      intro i j hi hj hij
      simp only [List.length_map] at hi hj
      simp only [List.getElem_map]
      apply s.distinct_mod vs[i] vs[j] (j - i)
      · have h1 := (hprop i hi).2
        have h2 := (hprop j hj).2
        omega
      · omega
      · rw [s.aliveBefore_length]
        omega
    have hperm : (vs.map (fun v => v % s.backends.length)).Perm s.aliveIndices :=
      (List.subperm_of_subset hnd hsub).perm_of_length_le (by simp [hlen])
    refine ⟨vs.map (fun v => v % s.backends.length), s1, ?_, by simp [hlen], hnd, ?_, hb1⟩
    · rw [hcalls, List.map_map]
      rfl
    · intro j
      rw [hperm.mem_iff, s.mem_aliveIndices]

/-- Witness of C3: four backends of which the second is dead, cursor 0; the
call after the one that returned index 0 returns index 2, and three consecutive
calls return the three alive backends. -/
theorem round_robin_modulo_skips_witness :
    (∃ k s2, k < 4 ∧
        (⟨[mkBackend "a" true 0, mkBackend "b" false 1, mkBackend "c" true 2,
            mkBackend "d" true 3], 4⟩ : ServerPool).GetNextPeer =
          .ok (some (((0 + 1) % 4 + k) % 4), s2) ∧
        (⟨[mkBackend "a" true 0, mkBackend "b" false 1, mkBackend "c" true 2,
            mkBackend "d" true 3], 3⟩ : ServerPool).aliveAt (((0 + 1) % 4 + k) % 4) = true ∧
        ∀ i, i < k →
          (⟨[mkBackend "a" true 0, mkBackend "b" false 1, mkBackend "c" true 2,
            mkBackend "d" true 3], 3⟩ : ServerPool).aliveAt (((0 + 1) % 4 + i) % 4) = false) ∧
      ∃ (rs : List Nat) (s1 : ServerPool),
        (⟨[mkBackend "a" true 0, mkBackend "b" false 1, mkBackend "c" true 2,
            mkBackend "d" true 3], 3⟩ : ServerPool).calls 3 = .ok (rs.map some, s1) ∧
        rs.length = 3 ∧ rs.Nodup ∧
        (∀ j, j ∈ rs ↔ j < 4 ∧
          (⟨[mkBackend "a" true 0, mkBackend "b" false 1, mkBackend "c" true 2,
            mkBackend "d" true 3], 3⟩ : ServerPool).aliveAt j = true) ∧
        s1.backends = [mkBackend "a" true 0, mkBackend "b" false 1, mkBackend "c" true 2,
            mkBackend "d" true 3] :=
  ⟨(round_robin_modulo_skips
      ⟨[mkBackend "a" true 0, mkBackend "b" false 1, mkBackend "c" true 2,
        mkBackend "d" true 3], 3⟩ ⟨0, by decide, by decide⟩).1 0
      ⟨[mkBackend "a" true 0, mkBackend "b" false 1, mkBackend "c" true 2,
        mkBackend "d" true 3], 4⟩ (by decide) (by decide),
    (round_robin_modulo_skips
      ⟨[mkBackend "a" true 0, mkBackend "b" false 1, mkBackend "c" true 2,
        mkBackend "d" true 3], 3⟩ ⟨0, by decide, by decide⟩).2 (by decide)⟩

/-- C4: on a pool in which exactly one backend, at index `a`, is alive, and for
every starting cursor, every call in a sequence of `k` consecutive `GetNextPeer`
calls returns that backend, and after the calls (for every `k ≥ 1`, so after
every call) the stored cursor is congruent to `a` modulo the pool size. -/
theorem single_alive_backend_always_selected (s : ServerPool) (a : Nat)
    (ha : a < s.backends.length) (halive : s.aliveAt a = true)
    (hdead : ∀ j, j < s.backends.length → j ≠ a → s.aliveAt j = false) (k : Nat) :
    ∃ s1, s.calls k = .ok (List.replicate k (some a), s1) ∧ s1.backends = s.backends ∧
      (0 < k → s1.current % s.backends.length = a) := by
  induction k generalizing s with
  | zero => exact ⟨s, rfl, rfl, fun h => absurd h (Nat.lt_irrefl 0)⟩
  | succ k ih =>
    obtain ⟨idx, s1, h1⟩ := s.GetNextPeer_exists_some a ha halive
    obtain ⟨hlt, hal, hb1, hcur⟩ := s.GetNextPeer_some idx s1 h1
    have hidx : idx = a := by
      by_contra hne
      rw [hdead idx hlt hne] at hal
      cases hal
    subst hidx
    obtain ⟨s2, h2, hb2, hc2⟩ := ih s1 (by rw [hb1]; exact ha)
      (by rw [s.aliveAt_congr s1 hb1]; exact halive)
      (by
        intro j hj hja
        rw [s.aliveAt_congr s1 hb1]
        exact hdead j (by rw [← hb1]; exact hj) hja)
    refine ⟨s2, ?_, hb2.trans hb1, ?_⟩
    · simp [ServerPool.calls, h1, h2, List.replicate_succ]
    · intro _
      cases k with
      | zero =>
        simp only [ServerPool.calls, Except.ok.injEq, Prod.mk.injEq] at h2
        rw [← h2.2]
        exact hcur
      | succ k =>
        have := hc2 (Nat.succ_pos k)
        rwa [hb1] at this

/-- Witness of C4: three backends of which only the middle one is alive, cursor
5, four consecutive calls. -/
theorem single_alive_backend_always_selected_witness :
    ∃ s1, (⟨[mkBackend "a" false 0, mkBackend "b" true 1, mkBackend "c" false 2], 5⟩ :
          ServerPool).calls 4 = .ok (List.replicate 4 (some 1), s1) ∧
      s1.backends = [mkBackend "a" false 0, mkBackend "b" true 1, mkBackend "c" false 2] ∧
      (0 < 4 → s1.current % 3 = 1) :=
  single_alive_backend_always_selected
    ⟨[mkBackend "a" false 0, mkBackend "b" true 1, mkBackend "c" false 2], 5⟩ 1
    (by decide) (by decide) (by decide) 4

/-- Counterexample to C5 as stated: on the freshly built pool `[A, B, C]`, all
alive and cursor 0, the first `GetNextPeer` call returns the backend at index 1,
which is `B`; it does not return `A`. -/
theorem fresh_pool_first_peer_is_not_A :
    (⟨[mkBackend "A" true 0, mkBackend "B" true 1, mkBackend "C" true 2], 0⟩ :
        ServerPool).GetNextPeer =
        .ok (some 1, ⟨[mkBackend "A" true 0, mkBackend "B" true 1, mkBackend "C" true 2], 1⟩) ∧
      ¬ ∃ s1, (⟨[mkBackend "A" true 0, mkBackend "B" true 1, mkBackend "C" true 2], 0⟩ :
        ServerPool).GetNextPeer = .ok (some 0, s1) := by
  refine ⟨by decide, ?_⟩
  rintro ⟨s1, h⟩
  have h1 : (⟨[mkBackend "A" true 0, mkBackend "B" true 1, mkBackend "C" true 2], 0⟩ :
        ServerPool).GetNextPeer =
        .ok (some 1, ⟨[mkBackend "A" true 0, mkBackend "B" true 1, mkBackend "C" true 2], 1⟩) := by
    decide
  rw [h1] at h
  simp at h

/-- C5, amended: on the freshly built pool `[A, B, C]`, all alive and cursor 0,
the first `GetNextPeer` call returns `B` (index 1); after `B` is marked dead with
`SetAlive(false)`, the call of the reroute returns `C` (index 2); the call of
the next request returns `A` (index 0); at the end `B.IsAlive()` is false while
`A` and `C` are still alive. -/
theorem fresh_pool_scenario :
    (⟨[mkBackend "A" true 0, mkBackend "B" true 1, mkBackend "C" true 2], 0⟩ :
        ServerPool).GetNextPeer =
        .ok (some 1, ⟨[mkBackend "A" true 0, mkBackend "B" true 1, mkBackend "C" true 2], 1⟩) ∧
      (⟨[mkBackend "A" true 0, mkBackend "B" true 1, mkBackend "C" true 2], 1⟩ :
        ServerPool).setAliveAt 1 false =
        ⟨[mkBackend "A" true 0, mkBackend "B" false 1, mkBackend "C" true 2], 1⟩ ∧
      (⟨[mkBackend "A" true 0, mkBackend "B" false 1, mkBackend "C" true 2], 1⟩ :
        ServerPool).GetNextPeer =
        .ok (some 2, ⟨[mkBackend "A" true 0, mkBackend "B" false 1, mkBackend "C" true 2], 2⟩) ∧
      (⟨[mkBackend "A" true 0, mkBackend "B" false 1, mkBackend "C" true 2], 2⟩ :
        ServerPool).GetNextPeer =
        .ok (some 0, ⟨[mkBackend "A" true 0, mkBackend "B" false 1, mkBackend "C" true 2], 3⟩) ∧
      (mkBackend "B" false 1).IsAlive.1 = false ∧
      (mkBackend "A" true 0).IsAlive.1 = true ∧
      (mkBackend "C" true 2).IsAlive.1 = true := by
  decide

/-- C6: `LoadBalance` answers with HTTP 503 exactly when `GetNextPeer` returned
`nil`, which on a pool with at least one backend is exactly when no backend of
the pool is alive at selection time; when `GetNextPeer` selected a backend,
`LoadBalance` hands the request to that one backend and writes no error itself;
and 503 is the only status it ever writes. -/
theorem LoadBalance_unavailable_iff (s : ServerPool) :
    ((∃ msg s1, LoadBalance s = .ok (.httpError msg 503, s1)) ↔
        ∃ s1, s.GetNextPeer = .ok (none, s1)) ∧
      (0 < s.backends.length →
        ((∃ msg s1, LoadBalance s = .ok (.httpError msg 503, s1)) ↔
          ∀ b, b ∈ s.backends → b.Alive = false)) ∧
      (∀ peer s1, s.GetNextPeer = .ok (some peer, s1) →
        LoadBalance s = .ok (.serveHTTP peer, s1)) ∧
      (∀ msg code s1, LoadBalance s = .ok (.httpError msg code, s1) →
        code = 503 ∧ s.GetNextPeer = .ok (none, s1)) := by
  have h1 : (∃ msg s1, LoadBalance s = .ok (.httpError msg 503, s1)) ↔
      ∃ s1, s.GetNextPeer = .ok (none, s1) := by
    unfold LoadBalance
    constructor
    · rintro ⟨msg, s1, h⟩
      split at h
      · cases h
      · cases h
      · simp only [Except.ok.injEq, Prod.mk.injEq] at h
        rename_i s2 heq
        exact ⟨s2, heq⟩
    · rintro ⟨s1, h⟩
      rw [h]
      exact ⟨_, _, rfl⟩
  refine ⟨h1, ?_, ?_, ?_⟩
  · intro hN
    rw [h1]
    exact s.GetNextPeer_none_iff hN
  · intro peer s1 h
    simp [LoadBalance, h]
  · intro msg code s1 h
    unfold LoadBalance at h
    split at h
    · cases h
    · cases h
    · rename_i s2 heq
      simp only [Except.ok.injEq, Prod.mk.injEq, Served.httpError.injEq] at h
      obtain ⟨⟨_, hc⟩, hs⟩ := h
      subst hs
      exact ⟨hc.symm, heq⟩

/-- Witness of C6: a pool of two dead backends gets the 503, and on a pool with
an alive backend the request goes to the backend `GetNextPeer` selected. -/
theorem LoadBalance_unavailable_iff_witness :
    ((∃ msg s1, LoadBalance ⟨[mkBackend "a" false 0, mkBackend "b" false 1], 0⟩
          = .ok (.httpError msg 503, s1)) ↔
        ∀ b, b ∈ [mkBackend "a" false 0, mkBackend "b" false 1] → b.Alive = false) ∧
      LoadBalance ⟨[mkBackend "a" true 0, mkBackend "b" false 1], 0⟩ =
        .ok (.serveHTTP 0, ⟨[mkBackend "a" true 0, mkBackend "b" false 1], 0⟩) :=
  ⟨(LoadBalance_unavailable_iff ⟨[mkBackend "a" false 0, mkBackend "b" false 1], 0⟩).2.1
      (by decide),
    (LoadBalance_unavailable_iff ⟨[mkBackend "a" true 0, mkBackend "b" false 1], 0⟩).2.2.1 0
      ⟨[mkBackend "a" true 0, mkBackend "b" false 1], 0⟩ (by decide)⟩

/-- C7: after `b.SetAlive(v)`, `b.IsAlive()` returns `v` and leaves the backend
as it is, so that any number of further `IsAlive` calls return `v` as well;
`SetAlive` changes nothing of the backend but its `Alive` flag (the URL, the
forwarding handle and the mutex are as before), and in the pool every other
backend and the cursor are unchanged; `IsAlive` changes nothing at all. -/
theorem SetAlive_then_IsAlive (b : Backend) (v : Bool) (s : ServerPool) (i : Nat) :
    (b.SetAlive v).IsAlive = (v, b.SetAlive v) ∧
      (∀ n : Nat, (Nat.iterate (fun b1 : Backend => b1.IsAlive.2) n (b.SetAlive v)).IsAlive.1 = v) ∧
      b.SetAlive v = { b with Alive := v } ∧
      (b.SetAlive v).URL = b.URL ∧
      (b.SetAlive v).ReverseProxy = b.ReverseProxy ∧
      (∀ j, j ≠ i → (s.setAliveAt i v).backends[j]? = s.backends[j]?) ∧
      (s.setAliveAt i v).backends.length = s.backends.length ∧
      (s.setAliveAt i v).current = s.current ∧
      b.IsAlive = (b.Alive, b) := by
  have hset : b.SetAlive v = { b with Alive := v } := by
    cases b
    simp [Backend.SetAlive, RWMutex.RLock, RWMutex.RUnlock]
  have hfix : (fun b1 : Backend => b1.IsAlive.2) (b.SetAlive v) = b.SetAlive v := by
    simp [Backend.IsAlive_eq]
  refine ⟨?_, ?_, hset, ?_, ?_, ?_, ?_, ?_, b.IsAlive_eq⟩
  · rw [Backend.IsAlive_eq, hset]
  · intro n
    rw [Function.iterate_fixed hfix, Backend.IsAlive_eq, hset]
  · rw [hset]
  · rw [hset]
  · intro j hj
    unfold ServerPool.setAliveAt
    split
    · simp [List.getElem?_set, Ne.symm hj]
    · rfl
  · unfold ServerPool.setAliveAt
    split <;> simp
  · unfold ServerPool.setAliveAt
    split <;> rfl

/-- Witness of C7: marking the first of two backends dead leaves the second
one as it was. -/
theorem SetAlive_then_IsAlive_witness :
    ((⟨[mkBackend "a" true 0, mkBackend "b" true 1], 0⟩ : ServerPool).setAliveAt 0 false).backends[1]?
      = (⟨[mkBackend "a" true 0, mkBackend "b" true 1], 0⟩ : ServerPool).backends[1]? :=
  (SetAlive_then_IsAlive (mkBackend "a" true 0) false
    ⟨[mkBackend "a" true 0, mkBackend "b" true 1], 0⟩ 0).2.2.2.2.2.1 1 (by decide)

theorem GetRetryFromContext_WithValue_Retry (request : Request) (v : Nat) :
    GetRetryFromContext (request.WithValue .Retry v) = v := by
  simp [GetRetryFromContext, Request.Value, Request.WithValue, List.find?]

theorem GetAttemptsFromContext_WithValue_Retry (request : Request) (v : Nat) :
    GetAttemptsFromContext (request.WithValue .Retry v) = GetAttemptsFromContext request := by
  simp [GetAttemptsFromContext, Request.Value, Request.WithValue, List.find?]

theorem GetRetryFromContext_WithValue_Attempts (request : Request) (v : Nat) :
    GetRetryFromContext (request.WithValue .Attempts v) = GetRetryFromContext request := by
  simp [GetRetryFromContext, Request.Value, Request.WithValue, List.find?]

theorem GetAttemptsFromContext_WithValue_Attempts (request : Request) (v : Nat) :
    GetAttemptsFromContext (request.WithValue .Attempts v) = v := by
  simp [GetAttemptsFromContext, Request.Value, Request.WithValue, List.find?]

theorem ErrorHandler_retry (serverUrl : String) (s : ServerPool) (request : Request)
    (h : GetRetryFromContext request < 3) :
    ErrorHandler serverUrl s request =
      (.proxyServeHTTP (request.WithValue .Retry (GetRetryFromContext request + 1)), s) := by
  simp [ErrorHandler, h]

theorem ErrorHandler_reroute (serverUrl : String) (s : ServerPool) (request : Request)
    (h : 3 ≤ GetRetryFromContext request) :
    ErrorHandler serverUrl s request =
      (.lb (request.WithValue .Attempts (GetAttemptsFromContext request + 1)),
        s.MarkBackendStatus serverUrl false) := by
  simp [ErrorHandler, Nat.not_lt.mpr h]

/-- Failures handled by the retry branch are followed by a forward to the same
backend, and leave the pool untouched. -/
theorem ServeHTTP_retries (s : ServerPool) (peer : Nat) (b : Backend)
    (hB : s.backends[peer]? = some b) (rest : List Bool) (k : Nat) :
    ∀ request : Request, GetRetryFromContext request + k ≤ 3 →
      (ServeHTTP (List.replicate k true ++ false :: rest) peer s request).2 = s ∧
      (ServeHTTP (List.replicate k true ++ false :: rest) peer s request).1.length = k + 1 ∧
      ∀ ev, ev ∈ (ServeHTTP (List.replicate k true ++ false :: rest) peer s request).1 →
        ∃ request1 failed, ev = Event.forward peer request1 failed ∧
          GetAttemptsFromContext request1 = GetAttemptsFromContext request := by
  induction k with
  | zero =>
    intro request _
    simp [ServeHTTP]
  | succ k ih =>
    intro request hr
    have hlt : GetRetryFromContext request < 3 := by omega
    obtain ⟨ih1, ih2, ih3⟩ := ih (request.WithValue .Retry (GetRetryFromContext request + 1))
      (by rw [GetRetryFromContext_WithValue_Retry]; omega)
    have hrun : ServeHTTP (List.replicate (k + 1) true ++ false :: rest) peer s request =
        (Event.forward peer request true ::
          (ServeHTTP (List.replicate k true ++ false :: rest) peer s
            (request.WithValue .Retry (GetRetryFromContext request + 1))).1,
          (ServeHTTP (List.replicate k true ++ false :: rest) peer s
            (request.WithValue .Retry (GetRetryFromContext request + 1))).2) := by
      simp [List.replicate_succ, ServeHTTP, hB, ErrorHandler_retry _ s request hlt]
    rw [hrun]
    refine ⟨ih1, by simp [ih2], ?_⟩
    intro ev hev
    rcases List.mem_cons.mp hev with rfl | hev
    · exact ⟨request, true, rfl, rfl⟩
    · obtain ⟨request1, failed, h1, h2⟩ := ih3 ev hev
      exact ⟨request1, failed, h1, by rw [h2, GetAttemptsFromContext_WithValue_Retry]⟩

theorem ServeHTTP_fail_retry (s : ServerPool) (peer : Nat) (b : Backend)
    (hB : s.backends[peer]? = some b) (request : Request)
    (h : GetRetryFromContext request < 3) (fails : List Bool) :
    ServeHTTP (true :: fails) peer s request =
      (Event.forward peer request true ::
        (ServeHTTP fails peer s
          (request.WithValue .Retry (GetRetryFromContext request + 1))).1,
        (ServeHTTP fails peer s
          (request.WithValue .Retry (GetRetryFromContext request + 1))).2) := by
  simp [ServeHTTP, hB, ErrorHandler_retry _ s request h]

theorem ServerPool.MarkBackendStatus_aliveAt (s : ServerPool) (B : Nat) (b : Backend)
    (hB : s.backends[B]? = some b) :
    (s.MarkBackendStatus b.URL false).aliveAt B = false := by
  simp [ServerPool.aliveAt, ServerPool.MarkBackendStatus, List.getElem?_map, hB,
    Backend.SetAlive]

theorem ServerPool.MarkBackendStatus_other (s : ServerPool) (url : String) (j : Nat)
    (b1 : Backend) (hj : s.backends[j]? = some b1) (hne : b1.URL ≠ url) :
    (s.MarkBackendStatus url false).backends[j]? = some b1 := by
  simp [ServerPool.MarkBackendStatus, List.getElem?_map, hj, hne]

/-- C8: when forwarding to backend `B` fails and the retry count `r` of the
request is below 3, the error handler ends by forwarding again on its own proxy
(the same backend) a request whose retry count is `r + 1` and whose attempt
count is unchanged, and it leaves the pool, so the liveness of every backend,
unchanged; consequently a request forwarded to `B` that fails `k` times, with
`r + k ≤ 3` (for a fresh request: at most three times, in particular fewer than
three times), and then succeeds is only ever forwarded to `B` and leaves the
pool as it was: `B` is not demoted. -/
theorem retry_branch_keeps_backend (serverUrl : String) (s : ServerPool) (request : Request)
    (h : GetRetryFromContext request < 3) :
    (∃ request1, ErrorHandler serverUrl s request = (.proxyServeHTTP request1, s) ∧
        GetRetryFromContext request1 = GetRetryFromContext request + 1 ∧
        GetAttemptsFromContext request1 = GetAttemptsFromContext request) ∧
      ∀ (B : Nat) (b : Backend) (k : Nat) (rest : List Bool),
        s.backends[B]? = some b → GetRetryFromContext request + k ≤ 3 →
        (ServeHTTP (List.replicate k true ++ false :: rest) B s request).2 = s ∧
        (ServeHTTP (List.replicate k true ++ false :: rest) B s request).1.length = k + 1 ∧
        ∀ ev, ev ∈ (ServeHTTP (List.replicate k true ++ false :: rest) B s request).1 →
          ∃ request1 failed, ev = Event.forward B request1 failed ∧
            GetAttemptsFromContext request1 = GetAttemptsFromContext request := by
  refine ⟨⟨_, ErrorHandler_retry serverUrl s request h, ?_, ?_⟩, ?_⟩
  · rw [GetRetryFromContext_WithValue_Retry]
  · rw [GetAttemptsFromContext_WithValue_Retry]
  · intro B b k rest hB hk
    exact ServeHTTP_retries s B b hB rest k request hk

/-- Witness of C8: a fresh request whose forwarding to the first of two alive
backends fails twice and then succeeds. -/
theorem retry_branch_keeps_backend_witness :
    (ServeHTTP (List.replicate 2 true ++ false :: []) 0
        ⟨[mkBackend "B" true 0, mkBackend "C" true 1], 0⟩ Request.fresh).2 =
        ⟨[mkBackend "B" true 0, mkBackend "C" true 1], 0⟩ ∧
      (ServeHTTP (List.replicate 2 true ++ false :: []) 0
        ⟨[mkBackend "B" true 0, mkBackend "C" true 1], 0⟩ Request.fresh).1.length = 2 + 1 ∧
      ∀ ev, ev ∈ (ServeHTTP (List.replicate 2 true ++ false :: []) 0
          ⟨[mkBackend "B" true 0, mkBackend "C" true 1], 0⟩ Request.fresh).1 →
        ∃ request1 failed, ev = Event.forward 0 request1 failed ∧
          GetAttemptsFromContext request1 = GetAttemptsFromContext Request.fresh :=
  (retry_branch_keeps_backend "B" ⟨[mkBackend "B" true 0, mkBackend "C" true 1], 0⟩
    Request.fresh (by decide)).2 0 (mkBackend "B" true 0) 2 [] (by decide) (by decide)

/-- Counterexample to C9 as stated: a fresh request is forwarded to the first
of two alive backends and forwarding fails exactly three times, the fourth
forward succeeding.  The backend is still alive afterwards, it was never marked
down and no reroute took place: each of the three failures was answered by a
retry on the same backend. -/
theorem three_failures_do_not_demote :
    ServeHTTP [true, true, true] 0 ⟨[mkBackend "B" true 0, mkBackend "C" true 1], 0⟩
        Request.fresh =
        ([Event.forward 0 ⟨[], false⟩ true,
          Event.forward 0 ⟨[(.Retry, 1)], false⟩ true,
          Event.forward 0 ⟨[(.Retry, 2), (.Retry, 1)], false⟩ true,
          Event.forward 0 ⟨[(.Retry, 3), (.Retry, 2), (.Retry, 1)], false⟩ false],
          ⟨[mkBackend "B" true 0, mkBackend "C" true 1], 0⟩) ∧
      ¬ ((ServeHTTP [true, true, true] 0 ⟨[mkBackend "B" true 0, mkBackend "C" true 1], 0⟩
        Request.fresh).2.aliveAt 0 = false) := by
  decide

/-- C9, amended: for a request with retry count 0 forwarded to backend `B`, when
forwarding to `B` has failed exactly four times (the first attempt and the three
retries), `B` has been marked down, so its liveness is false, and exactly one
reroute has been triggered, carrying the attempt count plus one: if some backend
is alive once `B` is marked down, the request is dispatched to an alive backend
different from `B`; if none is, the answer is 503.  Backends with another
address keep their liveness. -/
theorem four_failures_demote_and_reroute (s : ServerPool) (B : Nat) (b : Backend)
    (request : Request) (rest : List Bool)
    (hB : s.backends[B]? = some b) (hr : GetRetryFromContext request = 0) :
    ∃ (r1 r2 r3 r4 : Request) (tail : List Event) (s2 : ServerPool),
      ServeHTTP (true :: true :: true :: true :: false :: rest) B s request =
        (Event.forward B request true :: Event.forward B r1 true ::
          Event.forward B r2 true :: Event.forward B r3 true ::
          Event.markedDown b.URL :: Event.lb r4 :: tail, s2) ∧
      GetRetryFromContext r1 = 1 ∧ GetRetryFromContext r2 = 2 ∧ GetRetryFromContext r3 = 3 ∧
      GetAttemptsFromContext r4 = GetAttemptsFromContext request + 1 ∧
      (s.MarkBackendStatus b.URL false).aliveAt B = false ∧
      s2.backends = (s.MarkBackendStatus b.URL false).backends ∧
      s2.aliveAt B = false ∧
      (∀ (j : Nat) (b1 : Backend),
        s.backends[j]? = some b1 → b1.URL ≠ b.URL → s2.backends[j]? = some b1) ∧
      ((∃ j, j < s.backends.length ∧ (s.MarkBackendStatus b.URL false).aliveAt j = true) →
        ∃ peer1, tail = [Event.forward peer1 r4 false] ∧ peer1 ≠ B ∧
          (s.MarkBackendStatus b.URL false).aliveAt peer1 = true) ∧
      ((∀ j, j < s.backends.length → (s.MarkBackendStatus b.URL false).aliveAt j = false) →
        tail = [Event.httpError 503]) := by
  have hr1 : GetRetryFromContext (request.WithValue .Retry 1) = 1 :=
    GetRetryFromContext_WithValue_Retry _ _
  have hr2 : GetRetryFromContext ((request.WithValue .Retry 1).WithValue .Retry 2) = 2 :=
    GetRetryFromContext_WithValue_Retry _ _
  have hr3 : GetRetryFromContext
      (((request.WithValue .Retry 1).WithValue .Retry 2).WithValue .Retry 3) = 3 :=
    GetRetryFromContext_WithValue_Retry _ _
  have ha3 : GetAttemptsFromContext
      (((request.WithValue .Retry 1).WithValue .Retry 2).WithValue .Retry 3) =
      GetAttemptsFromContext request := by
    simp [GetAttemptsFromContext_WithValue_Retry]
  have hdown := s.MarkBackendStatus_aliveAt B b hB
  have hlenB : B < s.backends.length := by
    by_contra hc
    rw [List.getElem?_eq_none (Nat.le_of_not_lt hc)] at hB
    cases hB
  have hlen1 : (s.MarkBackendStatus b.URL false).backends.length = s.backends.length := by
    simp [ServerPool.MarkBackendStatus]
  have hN1 : 0 < (s.MarkBackendStatus b.URL false).backends.length := by
    rw [hlen1]
    exact Nat.lt_of_le_of_lt (Nat.zero_le B) hlenB
  have hrun : ServeHTTP (true :: true :: true :: true :: false :: rest) B s request =
      (Event.forward B request true ::
        Event.forward B (request.WithValue .Retry 1) true ::
        Event.forward B ((request.WithValue .Retry 1).WithValue .Retry 2) true ::
        (ServeHTTP (true :: false :: rest) B s
          (((request.WithValue .Retry 1).WithValue .Retry 2).WithValue .Retry 3)).1,
        (ServeHTTP (true :: false :: rest) B s
          (((request.WithValue .Retry 1).WithValue .Retry 2).WithValue .Retry 3)).2) := by
    have f0 := ServeHTTP_fail_retry s B b hB request (by omega)
      (true :: true :: true :: false :: rest)
    have f1 := ServeHTTP_fail_retry s B b hB (request.WithValue .Retry 1) (by omega)
      (true :: true :: false :: rest)
    have f2 := ServeHTTP_fail_retry s B b hB
      ((request.WithValue .Retry 1).WithValue .Retry 2) (by omega) (true :: false :: rest)
    rw [show GetRetryFromContext request + 1 = 1 by omega] at f0
    rw [show GetRetryFromContext (request.WithValue .Retry 1) + 1 = 2 by omega] at f1
    rw [show GetRetryFromContext ((request.WithValue .Retry 1).WithValue .Retry 2) + 1 = 3
      by omega] at f2
    rw [f0, f1, f2]
  have hhandler := ErrorHandler_reroute b.URL s
    (((request.WithValue .Retry 1).WithValue .Retry 2).WithValue .Retry 3) (by omega)
  rw [ha3] at hhandler
  obtain ⟨res, hres, hresb⟩ := (s.MarkBackendStatus b.URL false).GetNextPeer_returns hN1
  obtain ⟨peer, s2⟩ := res
  simp only at hresb
  have hal2 : s2.aliveAt B = false := by
    rw [ServerPool.aliveAt_congr _ s2 hresb]
    exact hdown
  have hother : ∀ (j : Nat) (b1 : Backend), s.backends[j]? = some b1 → b1.URL ≠ b.URL →
      s2.backends[j]? = some b1 := by
    intro j b1 hj hne
    rw [hresb]
    exact s.MarkBackendStatus_other b.URL j b1 hj hne
  cases peer with
  | none =>
    have hLB : LoadBalance (s.MarkBackendStatus b.URL false) =
        .ok (.httpError "Service not avaliable" 503, s2) := by
      simp [LoadBalance, hres]
    refine ⟨request.WithValue .Retry 1, (request.WithValue .Retry 1).WithValue .Retry 2,
      ((request.WithValue .Retry 1).WithValue .Retry 2).WithValue .Retry 3,
      (((request.WithValue .Retry 1).WithValue .Retry 2).WithValue .Retry 3).WithValue
        .Attempts (GetAttemptsFromContext request + 1),
      [Event.httpError 503], s2, ?_, hr1, hr2, hr3,
      GetAttemptsFromContext_WithValue_Attempts _ _, hdown, hresb, hal2, hother, ?_, ?_⟩
    · rw [hrun]
      simp [ServeHTTP, hB, hhandler, hLB]
    · rintro ⟨j, hj, hjal⟩
      obtain ⟨idx, s3, h3⟩ := (s.MarkBackendStatus b.URL false).GetNextPeer_exists_some j
        (by rw [hlen1]; exact hj) hjal
      rw [hres] at h3
      simp at h3
    · intro _
      rfl
  | some peer1 =>
    have hLB : LoadBalance (s.MarkBackendStatus b.URL false) = .ok (.serveHTTP peer1, s2) := by
      simp [LoadBalance, hres]
    obtain ⟨_, hpal, _, _⟩ := (s.MarkBackendStatus b.URL false).GetNextPeer_some peer1 s2 hres
    have hpne : peer1 ≠ B := by
      intro heq
      rw [heq, hdown] at hpal
      cases hpal
    refine ⟨request.WithValue .Retry 1, (request.WithValue .Retry 1).WithValue .Retry 2,
      ((request.WithValue .Retry 1).WithValue .Retry 2).WithValue .Retry 3,
      (((request.WithValue .Retry 1).WithValue .Retry 2).WithValue .Retry 3).WithValue
        .Attempts (GetAttemptsFromContext request + 1),
      [Event.forward peer1 ((((request.WithValue .Retry 1).WithValue .Retry 2).WithValue
        .Retry 3).WithValue .Attempts (GetAttemptsFromContext request + 1)) false], s2,
      ?_, hr1, hr2, hr3,
      GetAttemptsFromContext_WithValue_Attempts _ _, hdown, hresb, hal2, hother, ?_, ?_⟩
    · rw [hrun]
      simp [ServeHTTP, hB, hhandler, hLB]
    · intro _
      exact ⟨peer1, rfl, hpne, hpal⟩
    · intro hdead
      rw [hdead peer1 (by
        have := ((s.MarkBackendStatus b.URL false).GetNextPeer_some peer1 s2 hres).1
        rwa [hlen1] at this)] at hpal
      cases hpal

/-- Witness of C9 (amended): a fresh request forwarded to the first of two alive
backends, whose forwarding fails four times and then succeeds. -/
theorem four_failures_demote_and_reroute_witness :
    ∃ (r1 r2 r3 r4 : Request) (tail : List Event) (s2 : ServerPool),
      ServeHTTP (true :: true :: true :: true :: false :: []) 0
          ⟨[mkBackend "B" true 0, mkBackend "C" true 1], 0⟩ Request.fresh =
        (Event.forward 0 Request.fresh true :: Event.forward 0 r1 true ::
          Event.forward 0 r2 true :: Event.forward 0 r3 true ::
          Event.markedDown (mkBackend "B" true 0).URL :: Event.lb r4 :: tail, s2) ∧
      GetRetryFromContext r1 = 1 ∧ GetRetryFromContext r2 = 2 ∧ GetRetryFromContext r3 = 3 ∧
      GetAttemptsFromContext r4 = GetAttemptsFromContext Request.fresh + 1 ∧
      ((⟨[mkBackend "B" true 0, mkBackend "C" true 1], 0⟩ : ServerPool).MarkBackendStatus
        (mkBackend "B" true 0).URL false).aliveAt 0 = false ∧
      s2.backends = ((⟨[mkBackend "B" true 0, mkBackend "C" true 1], 0⟩ :
        ServerPool).MarkBackendStatus (mkBackend "B" true 0).URL false).backends ∧
      s2.aliveAt 0 = false ∧
      (∀ (j : Nat) (b1 : Backend),
        (⟨[mkBackend "B" true 0, mkBackend "C" true 1], 0⟩ : ServerPool).backends[j]?
          = some b1 → b1.URL ≠ (mkBackend "B" true 0).URL → s2.backends[j]? = some b1) ∧
      ((∃ j, j < (⟨[mkBackend "B" true 0, mkBackend "C" true 1], 0⟩ :
            ServerPool).backends.length ∧
          ((⟨[mkBackend "B" true 0, mkBackend "C" true 1], 0⟩ : ServerPool).MarkBackendStatus
            (mkBackend "B" true 0).URL false).aliveAt j = true) →
        ∃ peer1, tail = [Event.forward peer1 r4 false] ∧ peer1 ≠ 0 ∧
          ((⟨[mkBackend "B" true 0, mkBackend "C" true 1], 0⟩ : ServerPool).MarkBackendStatus
            (mkBackend "B" true 0).URL false).aliveAt peer1 = true) ∧
      ((∀ j, j < (⟨[mkBackend "B" true 0, mkBackend "C" true 1], 0⟩ :
            ServerPool).backends.length →
          ((⟨[mkBackend "B" true 0, mkBackend "C" true 1], 0⟩ : ServerPool).MarkBackendStatus
            (mkBackend "B" true 0).URL false).aliveAt j = false) →
        tail = [Event.httpError 503]) :=
  four_failures_demote_and_reroute ⟨[mkBackend "B" true 0, mkBackend "C" true 1], 0⟩ 0
    (mkBackend "B" true 0) Request.fresh [] (by decide) (by decide)

/-- Counterexample to C10 as stated: the error handler of backend `B` runs on a
request whose retry count is 3.  The request it re-dispatches through `lb` still
carries retry count 3, not 0; only the attempt count was written.  And it is
that request, retry count 3, that the routing entry point forwards to the newly
selected backend `C`. -/
theorem reroute_does_not_reset_retry_count :
    ErrorHandler "B" ⟨[mkBackend "B" true 0, mkBackend "C" true 1], 0⟩
        ⟨[(.Retry, 3)], false⟩ =
        (.lb ⟨[(.Attempts, 1), (.Retry, 3)], false⟩,
          ⟨[mkBackend "B" false 0, mkBackend "C" true 1], 0⟩) ∧
      GetRetryFromContext ⟨[(.Attempts, 1), (.Retry, 3)], false⟩ = 3 ∧
      GetRetryFromContext ⟨[(.Attempts, 1), (.Retry, 3)], false⟩ ≠ 0 ∧
      ServeHTTP [true] 0 ⟨[mkBackend "B" true 0, mkBackend "C" true 1], 0⟩
        ⟨[(.Retry, 3)], false⟩ =
        ([Event.forward 0 ⟨[(.Retry, 3)], false⟩ true,
          Event.markedDown "B",
          Event.lb ⟨[(.Attempts, 1), (.Retry, 3)], false⟩,
          Event.forward 1 ⟨[(.Attempts, 1), (.Retry, 3)], false⟩ false],
          ⟨[mkBackend "B" false 0, mkBackend "C" true 1], 1⟩) := by
  decide

/-- C10, amended: when the error handler reroutes (retry count `r ≥ 3`), the
request it re-dispatches through the top-level routing entry point carries the
retry count `r` unchanged and an attempt count equal to the previous attempt
count plus one, the backend of the handler having been marked down. -/
theorem reroute_carries_counters (serverUrl : String) (s : ServerPool) (request : Request)
    (h : 3 ≤ GetRetryFromContext request) :
    ∃ request1, ErrorHandler serverUrl s request =
        (.lb request1, s.MarkBackendStatus serverUrl false) ∧
      GetRetryFromContext request1 = GetRetryFromContext request ∧
      GetAttemptsFromContext request1 = GetAttemptsFromContext request + 1 :=
  ⟨_, ErrorHandler_reroute serverUrl s request h,
    GetRetryFromContext_WithValue_Attempts _ _, GetAttemptsFromContext_WithValue_Attempts _ _⟩

/-- Witness of C10 (amended): the handler of `B` on a request with retry count
3. -/
theorem reroute_carries_counters_witness :
    ∃ request1, ErrorHandler "B" ⟨[mkBackend "B" true 0, mkBackend "C" true 1], 0⟩
          ⟨[(.Retry, 3)], false⟩ =
        (.lb request1, (⟨[mkBackend "B" true 0, mkBackend "C" true 1], 0⟩ :
          ServerPool).MarkBackendStatus "B" false) ∧
      GetRetryFromContext request1 = GetRetryFromContext ⟨[(.Retry, 3)], false⟩ ∧
      GetAttemptsFromContext request1 = GetAttemptsFromContext ⟨[(.Retry, 3)], false⟩ + 1 :=
  reroute_carries_counters "B" ⟨[mkBackend "B" true 0, mkBackend "C" true 1], 0⟩
    ⟨[(.Retry, 3)], false⟩ (by decide)

/-! ## The reads of the scanning loop -/

/-- The reads of the loop on a non-empty pool: the positions from `i` on, up to
and including the first alive one, or all `n` of them when none is alive. -/
theorem ServerPool.GetNextPeer.examined_spec (next : Nat) (s : ServerPool)
    (hN : 0 < s.backends.length) (n : Nat) :
    ∀ i : Nat,
      ((∀ k, k < n → s.aliveAt ((i + k) % s.backends.length) = false) ∧
        ServerPool.GetNextPeer.examined next n i s =
          (List.range' i n).map (fun x => x % s.backends.length)) ∨
      ∃ k, k < n ∧ s.aliveAt ((i + k) % s.backends.length) = true ∧
        (∀ j, j < k → s.aliveAt ((i + j) % s.backends.length) = false) ∧
        ServerPool.GetNextPeer.examined next n i s =
          (List.range' i (k + 1)).map (fun x => x % s.backends.length) := by
  induction n with
  | zero =>
    intro i
    left
    exact ⟨fun k hk => absurd hk (Nat.not_lt_zero k), rfl⟩
  | succ n ih =>
    intro i
    have hne : s.backends.length ≠ 0 := Nat.pos_iff_ne_zero.mp hN
    have hlt : i % s.backends.length < s.backends.length := Nat.mod_lt _ hN
    obtain ⟨b, hb⟩ : ∃ b, s.backends[i % s.backends.length]? = some b :=
      ⟨s.backends[i % s.backends.length], List.getElem?_eq_getElem hlt⟩
    have hal := s.aliveAt_eq _ b hb
    have hset := s.set_self _ b hb
    have hex : ServerPool.GetNextPeer.examined next (n + 1) i s =
        if b.Alive = true then [i % s.backends.length]
        else i % s.backends.length :: ServerPool.GetNextPeer.examined next n (i + 1) s := by
      rw [ServerPool.GetNextPeer.examined]
      simp only [hne, if_false, hb, Backend.IsAlive_eq, hset]
    by_cases hA : b.Alive = true
    · right
      refine ⟨0, Nat.succ_pos n, ?_, fun j hj => absurd hj (Nat.not_lt_zero j), ?_⟩
      · simpa [hal] using hA
      · rw [hex]
        simp [hA]
    · have hA' : b.Alive = false := by simpa using hA
      rw [hex]
      simp only [hA', Bool.false_eq_true, if_false]
      rcases ih (i + 1) with ⟨hdead, hres⟩ | ⟨k, hk, hka, hkd, hres⟩
      · left
        refine ⟨?_, ?_⟩
        · intro k hk
          cases k with
          | zero => simpa [hal] using hA'
          | succ k =>
            have := hdead k (Nat.lt_of_succ_lt_succ hk)
            rwa [show i + 1 + k = i + (k + 1) by omega] at this
        · rw [hres]
          simp [List.range'_succ]
      · right
        refine ⟨k + 1, Nat.succ_lt_succ hk, ?_, ?_, ?_⟩
        · rwa [show i + 1 + k = i + (k + 1) by omega] at hka
        · intro j hj
          cases j with
          | zero => simpa [hal] using hA'
          | succ j =>
            have := hkd j (Nat.lt_of_succ_lt_succ hj)
            rwa [show i + 1 + j = i + (j + 1) by omega] at this
        · rw [hres]
          simp [List.range'_succ]

/-- Within a window of `N` consecutive positions, different positions stand for
different indices. -/
theorem window_mod_injective (N next a b : Nat) (ha : next ≤ a) (haN : a < next + N)
    (hb : next ≤ b) (hbN : b < next + N) (h : a % N = b % N) : a = b := by
  rcases Nat.le_total a b with hab | hab
  · have hz : (b - a) % N = 0 := Nat.sub_mod_eq_zero_of_mod_eq h.symm
    rw [Nat.mod_eq_of_lt (by omega)] at hz
    omega
  · have hz : (a - b) % N = 0 := Nat.sub_mod_eq_zero_of_mod_eq h
    rw [Nat.mod_eq_of_lt (by omega)] at hz
    omega

theorem window_mod_nodup (N next n : Nat) (hn : n ≤ N) :
    ((List.range' next n).map (fun x => x % N)).Nodup := by
  apply List.Nodup.map_on
  · intro a ha b hb hab
    rw [List.mem_range'_1] at ha hb
    exact window_mod_injective N next a b ha.1 (by omega) hb.1 (by omega) hab
  · exact List.nodup_range' next n

/-- What one `GetNextPeer` call reads on a non-empty pool. -/
theorem ServerPool.examinedBy_spec (s : ServerPool) (hN : 0 < s.backends.length) :
    ((∀ k, k < s.backends.length →
          s.aliveAt (((s.current + 1) % 2 ^ 64 % s.backends.length + k) % s.backends.length)
            = false) ∧
        s.examinedBy =
          (List.range' ((s.current + 1) % 2 ^ 64 % s.backends.length) s.backends.length).map
            (fun x => x % s.backends.length)) ∨
      ∃ k, k < s.backends.length ∧
        s.aliveAt (((s.current + 1) % 2 ^ 64 % s.backends.length + k) % s.backends.length)
          = true ∧
        (∀ j, j < k →
          s.aliveAt (((s.current + 1) % 2 ^ 64 % s.backends.length + j) % s.backends.length)
            = false) ∧
        s.examinedBy =
          (List.range' ((s.current + 1) % 2 ^ 64 % s.backends.length) (k + 1)).map
            (fun x => x % s.backends.length) := by
  have hne : s.backends.length ≠ 0 := Nat.pos_iff_ne_zero.mp hN
  have hE : s.examinedBy =
      ServerPool.GetNextPeer.examined ((s.current + 1) % 2 ^ 64 % s.backends.length)
        s.backends.length ((s.current + 1) % 2 ^ 64 % s.backends.length)
        { s with current := (s.current + 1) % 2 ^ 64 } := by
    simp [ServerPool.examinedBy, ServerPool.NextIndex, hne]
  have hspec := ServerPool.GetNextPeer.examined_spec
    ((s.current + 1) % 2 ^ 64 % s.backends.length)
    { s with current := (s.current + 1) % 2 ^ 64 } hN s.backends.length
    ((s.current + 1) % 2 ^ 64 % s.backends.length)
  have hal : ∀ j, ({ s with current := (s.current + 1) % 2 ^ 64 } : ServerPool).aliveAt j
      = s.aliveAt j := fun j => rfl
  simp only [hal] at hspec
  rw [hE]
  exact hspec

theorem ServerPool.examinedBy_bounds (s : ServerPool) (hN : 0 < s.backends.length) :
    s.examinedBy.length ≤ s.backends.length ∧ s.examinedBy.Nodup ∧
      ∀ idx, idx ∈ s.examinedBy → idx < s.backends.length := by
  rcases s.examinedBy_spec hN with ⟨_, hres⟩ | ⟨k, hk, _, _, hres⟩
  · rw [hres]
    refine ⟨by simp, window_mod_nodup _ _ _ (Nat.le_refl _), ?_⟩
    intro idx hidx
    obtain ⟨x, _, rfl⟩ := List.mem_map.mp hidx
    exact Nat.mod_lt _ hN
  · rw [hres]
    refine ⟨by simp; omega, window_mod_nodup _ _ _ (by omega), ?_⟩
    intro idx hidx
    obtain ⟨x, _, rfl⟩ := List.mem_map.mp hidx
    exact Nat.mod_lt _ hN

theorem ServerPool.NextIndex_eq (s : ServerPool) (hN : 0 < s.backends.length) :
    s.NextIndex = .ok ((s.current + 1) % 2 ^ 64 % s.backends.length,
      { s with current := (s.current + 1) % 2 ^ 64 }) := by
  have hne : s.backends.length ≠ 0 := Nat.pos_iff_ne_zero.mp hN
  simp [ServerPool.NextIndex, hne]

/-- C14: first alive in scan order wins.  On a pool with `N ≥ 1` backends, with
`next` the index `NextIndex` yields: either some backend is alive, and
`GetNextPeer` returns the backend at index `(next + k) mod N` for the least `k`
in `[0, N)` whose backend is alive, every backend at `(next + j) mod N` with
`j < k` being dead, after reading exactly the positions `next, ..., next + k`; or
none is alive, and it returns `nil` after reading the `N` positions
`next, ..., next + N - 1`.  It reads at most `N` backends and none twice. -/
theorem first_alive_in_scan_order_wins (s : ServerPool) (hN : 0 < s.backends.length) :
    ∃ next s1, s.NextIndex = .ok (next, s1) ∧ next < s.backends.length ∧
      ((∃ k, k < s.backends.length ∧
          s.aliveAt ((next + k) % s.backends.length) = true ∧
          (∀ j, j < k → s.aliveAt ((next + j) % s.backends.length) = false) ∧
          (∃ s2, s.GetNextPeer = .ok (some ((next + k) % s.backends.length), s2)) ∧
          s.examinedBy = (List.range' next (k + 1)).map (fun x => x % s.backends.length)) ∨
        ((∀ k, k < s.backends.length →
            s.aliveAt ((next + k) % s.backends.length) = false) ∧
          (∃ s2, s.GetNextPeer = .ok (none, s2)) ∧
          s.examinedBy =
            (List.range' next s.backends.length).map (fun x => x % s.backends.length))) ∧
      s.examinedBy.length ≤ s.backends.length ∧ s.examinedBy.Nodup := by
  refine ⟨_, _, s.NextIndex_eq hN, Nat.mod_lt _ hN, ?_, (s.examinedBy_bounds hN).1,
    (s.examinedBy_bounds hN).2.1⟩
  rcases s.GetNextPeer_spec hN with ⟨hdead, hres⟩ | ⟨k, hk, hka, hkd, hres⟩
  · right
    rcases s.examinedBy_spec hN with ⟨_, hex⟩ | ⟨k1, hk1, hka1, _, _⟩
    · exact ⟨hdead, ⟨_, hres⟩, hex⟩
    · rw [hdead k1 hk1] at hka1
      cases hka1
  · left
    rcases s.examinedBy_spec hN with ⟨hdead1, _⟩ | ⟨k1, hk1, hka1, hkd1, hex⟩
    · rw [hdead1 k hk] at hka
      cases hka
    · have hkk : k1 = k := by
        rcases Nat.lt_trichotomy k1 k with h | h | h
        · rw [hkd k1 h] at hka1
          cases hka1
        · exact h
        · rw [hkd1 k h] at hka
          cases hka
      subst hkk
      exact ⟨k1, hk, hka, hkd, ⟨_, hres⟩, hex⟩

/-- Witness of C14: three backends of which only the first is alive, cursor
0. -/
theorem first_alive_in_scan_order_wins_witness :
    ∃ next s1,
      (⟨[mkBackend "a" true 0, mkBackend "b" false 1, mkBackend "c" false 2], 0⟩ :
        ServerPool).NextIndex = .ok (next, s1) ∧ next < 3 ∧
      ((∃ k, k < 3 ∧
          (⟨[mkBackend "a" true 0, mkBackend "b" false 1, mkBackend "c" false 2], 0⟩ :
            ServerPool).aliveAt ((next + k) % 3) = true ∧
          (∀ j, j < k →
            (⟨[mkBackend "a" true 0, mkBackend "b" false 1, mkBackend "c" false 2], 0⟩ :
              ServerPool).aliveAt ((next + j) % 3) = false) ∧
          (∃ s2,
            (⟨[mkBackend "a" true 0, mkBackend "b" false 1, mkBackend "c" false 2], 0⟩ :
              ServerPool).GetNextPeer = .ok (some ((next + k) % 3), s2)) ∧
          (⟨[mkBackend "a" true 0, mkBackend "b" false 1, mkBackend "c" false 2], 0⟩ :
            ServerPool).examinedBy = (List.range' next (k + 1)).map (fun x => x % 3)) ∨
        ((∀ k, k < 3 →
            (⟨[mkBackend "a" true 0, mkBackend "b" false 1, mkBackend "c" false 2], 0⟩ :
              ServerPool).aliveAt ((next + k) % 3) = false) ∧
          (∃ s2,
            (⟨[mkBackend "a" true 0, mkBackend "b" false 1, mkBackend "c" false 2], 0⟩ :
              ServerPool).GetNextPeer = .ok (none, s2)) ∧
          (⟨[mkBackend "a" true 0, mkBackend "b" false 1, mkBackend "c" false 2], 0⟩ :
            ServerPool).examinedBy = (List.range' next 3).map (fun x => x % 3))) ∧
      (⟨[mkBackend "a" true 0, mkBackend "b" false 1, mkBackend "c" false 2], 0⟩ :
        ServerPool).examinedBy.length ≤ 3 ∧
      (⟨[mkBackend "a" true 0, mkBackend "b" false 1, mkBackend "c" false 2], 0⟩ :
        ServerPool).examinedBy.Nodup :=
  first_alive_in_scan_order_wins
    ⟨[mkBackend "a" true 0, mkBackend "b" false 1, mkBackend "c" false 2], 0⟩ (by decide)

/-- Counterexample to C15 as stated: three backends and the cursor at
`2 ^ 64 - 1`.  The increment wraps to 0 and `NextIndex` returns index 0, while
`((c mod N) + 1) mod N` is 1. -/
theorem NextIndex_wraps_at_max_cursor :
    (⟨[mkBackend "a" true 0, mkBackend "b" true 1, mkBackend "c" true 2], 2 ^ 64 - 1⟩ :
        ServerPool).NextIndex =
        .ok (0, ⟨[mkBackend "a" true 0, mkBackend "b" true 1, mkBackend "c" true 2], 0⟩) ∧
      (((2 ^ 64 - 1) % 3) + 1) % 3 = 1 ∧
      (0 : Nat) ≠ (((2 ^ 64 - 1) % 3) + 1) % 3 := by
  decide

/-- C15, amended: for every `N ≥ 1` and every cursor value `c`, `NextIndex`
stores `(c + 1) mod 2^64` and returns that value modulo `N`, so the stored cursor
is congruent to the returned index modulo `N`; the backends are untouched.  When
the increment does not wrap (`c < 2^64 - 1`) the index is `((c mod N) + 1) mod N`;
at `c = 2^64 - 1` the cursor wraps to 0 and the index is 0. -/
theorem NextIndex_advances_by_one (s : ServerPool) (hN : 0 < s.backends.length) :
    ∃ next s1, s.NextIndex = .ok (next, s1) ∧
      s1.current = (s.current + 1) % 2 ^ 64 ∧
      next = s1.current % s.backends.length ∧
      s1.backends = s.backends ∧
      (s.current + 1 < 2 ^ 64 →
        next = ((s.current % s.backends.length) + 1) % s.backends.length) ∧
      (s.current + 1 = 2 ^ 64 → next = 0 ∧ s1.current = 0) := by
  refine ⟨_, _, s.NextIndex_eq hN, rfl, rfl, rfl, ?_, ?_⟩
  · intro hc
    rw [Nat.mod_eq_of_lt hc, Nat.mod_add_mod]
  · intro hc
    simp [hc]

/-- Witness of C15 (amended): three backends, cursor 4; the index returned is
`((4 mod 3) + 1) mod 3`. -/
theorem NextIndex_advances_by_one_witness :
    ∃ next s1,
      (⟨[mkBackend "a" true 0, mkBackend "b" true 1, mkBackend "c" true 2], 4⟩ :
        ServerPool).NextIndex = .ok (next, s1) ∧
      s1.current = (4 + 1) % 2 ^ 64 ∧
      next = s1.current % 3 ∧
      next = ((4 % 3) + 1) % 3 :=
  match NextIndex_advances_by_one
    ⟨[mkBackend "a" true 0, mkBackend "b" true 1, mkBackend "c" true 2], 4⟩ (by decide) with
  | ⟨next, s1, h1, h2, h3, _, h5, _⟩ => ⟨next, s1, h1, h2, h3, h5 (by decide)⟩

/-- C16: cursor update of `GetNextPeer` on a pool with `N ≥ 1` backends and
cursor `c`, with `next = ((c + 1) mod 2^64) mod N`.  The call returns; if the
first candidate (index `next`) is alive, or no backend is alive, the cursor
afterwards is `(c + 1) mod 2^64`; if the first candidate is dead and a backend
at index `idx` is returned, then `idx ≠ next` and the cursor afterwards is
exactly `idx`; whenever a backend at index `idx` is returned, the cursor
afterwards is congruent to `idx` modulo `N`. -/
theorem GetNextPeer_cursor_update (s : ServerPool) (hN : 0 < s.backends.length) :
    ∃ r s1, s.GetNextPeer = .ok (r, s1) ∧
      (s.aliveAt ((s.current + 1) % 2 ^ 64 % s.backends.length) = true →
        s1.current = (s.current + 1) % 2 ^ 64) ∧
      ((∀ b, b ∈ s.backends → b.Alive = false) →
        s1.current = (s.current + 1) % 2 ^ 64) ∧
      (s.aliveAt ((s.current + 1) % 2 ^ 64 % s.backends.length) = false →
        ∀ idx, r = some idx →
          idx ≠ (s.current + 1) % 2 ^ 64 % s.backends.length ∧ s1.current = idx) ∧
      (∀ idx, r = some idx → s1.current % s.backends.length = idx) := by
  have hnext : (s.current + 1) % 2 ^ 64 % s.backends.length < s.backends.length :=
    Nat.mod_lt _ hN
  have h0 : ((s.current + 1) % 2 ^ 64 % s.backends.length + 0) % s.backends.length =
      (s.current + 1) % 2 ^ 64 % s.backends.length := by
    rw [Nat.add_zero, Nat.mod_mod]
  rcases s.GetNextPeer_spec hN with ⟨hdead, hres⟩ | ⟨k, hk, hka, hkd, hres⟩
  · refine ⟨_, _, hres, fun _ => rfl, fun _ => rfl, ?_, ?_⟩
    · intro _ idx hidx
      cases hidx
    · intro idx hidx
      cases hidx
  · by_cases hk0 : k = 0
    · subst hk0
      rw [h0] at hka hres
      simp only [ne_eq, not_true_eq_false, if_false] at hres
      refine ⟨_, _, hres, fun _ => rfl, fun _ => rfl, ?_, ?_⟩
      · intro hd
        rw [hd] at hka
        cases hka
      · intro idx hidx
        simp only [Option.some.injEq] at hidx
        rw [← hidx]
    · simp only [hk0, ne_eq, not_false_eq_true, if_true] at hres
      have hfirst : s.aliveAt ((s.current + 1) % 2 ^ 64 % s.backends.length) = false := by
        have := hkd 0 (Nat.pos_of_ne_zero hk0)
        rwa [h0] at this
      have hne : ((s.current + 1) % 2 ^ 64 % s.backends.length + k) % s.backends.length ≠
          (s.current + 1) % 2 ^ 64 % s.backends.length := by
        intro heq
        have := window_mod_injective s.backends.length
          ((s.current + 1) % 2 ^ 64 % s.backends.length)
          ((s.current + 1) % 2 ^ 64 % s.backends.length + k)
          ((s.current + 1) % 2 ^ 64 % s.backends.length)
          (by omega) (by omega) (by omega) (by omega) (by rw [heq, Nat.mod_mod])
        omega
      refine ⟨_, _, hres, ?_, ?_, ?_, ?_⟩
      · intro ha
        rw [hfirst] at ha
        cases ha
      · intro hall
        have := (s.aliveAt_false_iff.mpr hall) _ (Nat.mod_lt
          ((s.current + 1) % 2 ^ 64 % s.backends.length + k) hN)
        rw [this] at hka
        cases hka
      · intro _ idx hidx
        simp only [Option.some.injEq] at hidx
        subst hidx
        exact ⟨hne, rfl⟩
      · intro idx hidx
        simp only [Option.some.injEq] at hidx
        subst hidx
        exact Nat.mod_mod _ _

/-- Witness of C16: three backends of which the second is dead, cursor 0; the
first candidate is index 1, the backend returned is at index 2 and the cursor is
2 afterwards. -/
theorem GetNextPeer_cursor_update_witness :
    ∃ r s1,
      (⟨[mkBackend "a" true 0, mkBackend "b" false 1, mkBackend "c" true 2], 0⟩ :
        ServerPool).GetNextPeer = .ok (r, s1) ∧
      (∀ idx, r = some idx → idx ≠ (0 + 1) % 2 ^ 64 % 3 ∧ s1.current = idx) ∧
      (∀ idx, r = some idx → s1.current % 3 = idx) :=
  match GetNextPeer_cursor_update
    ⟨[mkBackend "a" true 0, mkBackend "b" false 1, mkBackend "c" true 2], 0⟩ (by decide) with
  | ⟨r, s1, h1, _, _, h4, h5⟩ => ⟨r, s1, h1, h4 (by decide), h5⟩

/-- C17: index safety.  On a pool with `N ≥ 1` backends and any cursor value,
`NextIndex` returns an index in `[0, N)`, `GetNextPeer` returns without a
division by zero and without an out-of-range access, and every index with which
it reads `s.backends` is in `[0, N)` and addresses a backend. -/
theorem GetNextPeer_index_safety (s : ServerPool) (hN : 0 < s.backends.length) :
    (∃ next s1, s.NextIndex = .ok (next, s1) ∧ next < s.backends.length) ∧
      (∃ r, s.GetNextPeer = .ok r) ∧
      ∀ idx, idx ∈ s.examinedBy →
        idx < s.backends.length ∧ ∃ b, s.backends[idx]? = some b := by
  refine ⟨⟨_, _, s.NextIndex_eq hN, Nat.mod_lt _ hN⟩, ?_, ?_⟩
  · obtain ⟨r, hr, _⟩ := s.GetNextPeer_returns hN
    exact ⟨r, hr⟩
  · intro idx hidx
    have hlt := (s.examinedBy_bounds hN).2.2 idx hidx
    exact ⟨hlt, s.backends[idx], List.getElem?_eq_getElem hlt⟩

/-- Witness of C17: two dead backends and the cursor at `2 ^ 64 - 1`. -/
theorem GetNextPeer_index_safety_witness :
    (∃ next s1,
        (⟨[mkBackend "a" false 0, mkBackend "b" false 1], 2 ^ 64 - 1⟩ : ServerPool).NextIndex
          = .ok (next, s1) ∧ next < 2) ∧
      (∃ r, (⟨[mkBackend "a" false 0, mkBackend "b" false 1], 2 ^ 64 - 1⟩ :
        ServerPool).GetNextPeer = .ok r) ∧
      ∀ idx,
        idx ∈ (⟨[mkBackend "a" false 0, mkBackend "b" false 1], 2 ^ 64 - 1⟩ :
          ServerPool).examinedBy →
        idx < 2 ∧ ∃ b, [mkBackend "a" false 0, mkBackend "b" false 1][idx]? = some b :=
  GetNextPeer_index_safety ⟨[mkBackend "a" false 0, mkBackend "b" false 1], 2 ^ 64 - 1⟩
    (by decide)

/-- C18: `GetNextPeer` is read-only on the backends.  For every pool and
cursor value, a call that returns leaves the backend sequence as it was (same
length, same order, every backend with the same `Alive` flag, address,
forwarding handle and mutex state); only the cursor may differ.  On a pool with
at least one backend the call does return. -/
theorem GetNextPeer_read_only (s : ServerPool) :
    (∀ r s1, s.GetNextPeer = .ok (r, s1) →
        s1.backends = s.backends ∧ s1.backends.length = s.backends.length ∧
        (∀ j, s1.aliveAt j = s.aliveAt j) ∧
        s1 = { s with current := s1.current }) ∧
      (0 < s.backends.length → ∃ r s1, s.GetNextPeer = .ok (r, s1)) := by
  refine ⟨?_, ?_⟩
  · intro r s1 h
    have hN : 0 < s.backends.length := by
      by_contra hc
      have h0 : s.backends.length = 0 := by omega
      simp [ServerPool.GetNextPeer, ServerPool.NextIndex, h0] at h
    obtain ⟨r1, hr1, hb⟩ := s.GetNextPeer_returns hN
    rw [h] at hr1
    simp only [Except.ok.injEq] at hr1
    subst hr1
    simp only at hb
    refine ⟨hb, by rw [hb], fun j => s.aliveAt_congr s1 hb j, ?_⟩
    cases s1
    simp only at hb
    simp [hb]
  · intro hN
    obtain ⟨r, hr, _⟩ := s.GetNextPeer_returns hN
    exact ⟨r.1, r.2, hr⟩

/-- Witness of C18: three backends of which the second is dead, cursor 0. -/
theorem GetNextPeer_read_only_witness :
    (⟨[mkBackend "a" true 0, mkBackend "b" false 1, mkBackend "c" true 2], 2⟩ :
        ServerPool).backends =
        (⟨[mkBackend "a" true 0, mkBackend "b" false 1, mkBackend "c" true 2], 0⟩ :
          ServerPool).backends :=
  ((GetNextPeer_read_only
    ⟨[mkBackend "a" true 0, mkBackend "b" false 1, mkBackend "c" true 2], 0⟩).1 (some 2)
    ⟨[mkBackend "a" true 0, mkBackend "b" false 1, mkBackend "c" true 2], 2⟩ (by decide)).1

/-- C19: on a pool with zero backends, `NextIndex` fails with a division by
zero (the modulo by `len(s.backends) = 0`), and therefore `GetNextPeer` returns
neither a backend nor `nil` and `LoadBalance` neither forwards nor answers
503: each of them ends with that panic. -/
theorem empty_pool_divides_by_zero (s : ServerPool) (h : s.backends = []) :
    s.NextIndex = .error .divideByZero ∧
      s.GetNextPeer = .error .divideByZero ∧
      LoadBalance s = .error .divideByZero ∧
      (¬ ∃ r, s.GetNextPeer = .ok r) ∧
      (¬ ∃ r, LoadBalance s = .ok r) := by
  have h1 : s.NextIndex = .error .divideByZero := by
    simp [ServerPool.NextIndex, h]
  have h2 : s.GetNextPeer = .error .divideByZero := by
    simp [ServerPool.GetNextPeer, h1]
  have h3 : LoadBalance s = .error .divideByZero := by
    simp [LoadBalance, h2]
  refine ⟨h1, h2, h3, ?_, ?_⟩
  · rintro ⟨r, hr⟩
    rw [h2] at hr
    cases hr
  · rintro ⟨r, hr⟩
    rw [h3] at hr
    cases hr

/-- Witness of C19: the global `serverPool`, to which the program adds no
backend. -/
theorem empty_pool_divides_by_zero_witness :
    serverPool.NextIndex = .error .divideByZero ∧
      serverPool.GetNextPeer = .error .divideByZero ∧
      LoadBalance serverPool = .error .divideByZero ∧
      (¬ ∃ r, serverPool.GetNextPeer = .ok r) ∧
      (¬ ∃ r, LoadBalance serverPool = .ok r) :=
  empty_pool_divides_by_zero serverPool rfl

/-! ## The failover run -/

theorem ServerPool.GetNextPeer_backends (s : ServerPool) (r : Option Nat) (s1 : ServerPool)
    (h : s.GetNextPeer = .ok (r, s1)) : s1.backends = s.backends := by
  have hN : 0 < s.backends.length := by
    by_contra hc
    have h0 : s.backends.length = 0 := by omega
    simp [ServerPool.GetNextPeer, ServerPool.NextIndex, h0] at h
  obtain ⟨r1, hr1, hb⟩ := s.GetNextPeer_returns hN
  rw [h] at hr1
  simp only [Except.ok.injEq] at hr1
  subst hr1
  exact hb

theorem ServerPool.MarkBackendStatus_dead (s : ServerPool) (url : String) (j : Nat)
    (h : s.aliveAt j = false) : (s.MarkBackendStatus url false).aliveAt j = false := by
  unfold ServerPool.aliveAt at h
  unfold ServerPool.aliveAt ServerPool.MarkBackendStatus
  simp only [List.getElem?_map]
  cases hj : s.backends[j]? with
  | none => simp
  | some b1 =>
    rw [hj] at h
    simp only at h
    by_cases hu : b1.URL = url
    · simp [hu, Backend.SetAlive]
    · simp [hu, h]

theorem LoadBalance_serveHTTP (s : ServerPool) (peer : Nat) (s1 : ServerPool)
    (h : LoadBalance s = .ok (.serveHTTP peer, s1)) : s.GetNextPeer = .ok (some peer, s1) := by
  unfold LoadBalance at h
  split at h
  · cases h
  · rename_i p s2 heq
    simp only [Except.ok.injEq, Prod.mk.injEq, Served.serveHTTP.injEq] at h
    rw [heq, h.1, h.2]
  · cases h

theorem LoadBalance_httpError (s : ServerPool) (msg : String) (code : Nat) (s1 : ServerPool)
    (h : LoadBalance s = .ok (.httpError msg code, s1)) : s.GetNextPeer = .ok (none, s1) := by
  unfold LoadBalance at h
  split at h
  · cases h
  · cases h
  · rename_i s2 heq
    simp only [Except.ok.injEq, Prod.mk.injEq] at h
    rw [heq, h.2]

theorem ServeHTTP_fail_reroute (s : ServerPool) (peer : Nat) (b : Backend)
    (hB : s.backends[peer]? = some b) (request : Request)
    (h : 3 ≤ GetRetryFromContext request) (fails : List Bool) :
    ServeHTTP (true :: fails) peer s request =
      match LoadBalance (s.MarkBackendStatus b.URL false) with
      | .error p =>
        ([.forward peer request true, .markedDown b.URL,
          .lb (request.WithValue .Attempts (GetAttemptsFromContext request + 1)),
          .panicked p], s.MarkBackendStatus b.URL false)
      | .ok (.httpError _ code, s2) =>
        ([.forward peer request true, .markedDown b.URL,
          .lb (request.WithValue .Attempts (GetAttemptsFromContext request + 1)),
          .httpError code], s2)
      | .ok (.serveHTTP peer1, s2) =>
        (.forward peer request true :: .markedDown b.URL ::
          .lb (request.WithValue .Attempts (GetAttemptsFromContext request + 1)) ::
          (ServeHTTP fails peer1 s2
            (request.WithValue .Attempts (GetAttemptsFromContext request + 1))).1,
          (ServeHTTP fails peer1 s2
            (request.WithValue .Attempts (GetAttemptsFromContext request + 1))).2) := by
  rw [ServeHTTP]
  simp only [hB, ErrorHandler_reroute _ s request h]

/-- A backend that is dead stays dead while a request is served, and the
request is never forwarded to it, unless it is the backend the request is
being forwarded to already. -/
theorem ServeHTTP_avoids_dead (j : Nat) (fails : List Bool) :
    ∀ (peer : Nat) (s : ServerPool) (request : Request), s.aliveAt j = false → peer ≠ j →
      (∀ ev, ev ∈ (ServeHTTP fails peer s request).1 →
        ∀ rq failed, ev ≠ Event.forward j rq failed) ∧
      (ServeHTTP fails peer s request).2.aliveAt j = false := by
  induction fails with
  | nil =>
    intro peer s request hd hp
    simp only [ServeHTTP, List.mem_singleton]
    refine ⟨?_, hd⟩
    rintro ev rfl rq failed heq
    simp only [Event.forward.injEq] at heq
    exact hp heq.1
  | cons f fails ih =>
    intro peer s request hd hp
    have hfwd : ∀ (rq0 : Request) (f0 : Bool) (rq : Request) (failed : Bool),
        Event.forward peer rq0 f0 ≠ Event.forward j rq failed := by
      intro rq0 f0 rq failed heq
      simp only [Event.forward.injEq] at heq
      exact hp heq.1
    cases f with
    | false =>
      simp only [ServeHTTP, List.mem_singleton]
      refine ⟨?_, hd⟩
      rintro ev rfl rq failed
      exact hfwd _ _ _ _
    | true =>
      cases hB : s.backends[peer]? with
      | none =>
        simp only [ServeHTTP, hB]
        refine ⟨?_, hd⟩
        intro ev hev rq failed
        simp only [List.mem_cons, List.mem_singleton, List.not_mem_nil, or_false] at hev
        rcases hev with rfl | rfl
        · exact hfwd _ _ _ _
        · intro heq
          cases heq
      | some b =>
        by_cases hr : GetRetryFromContext request < 3
        · rw [ServeHTTP_fail_retry s peer b hB request hr fails]
          obtain ⟨ih1, ih2⟩ := ih peer s
            (request.WithValue .Retry (GetRetryFromContext request + 1)) hd hp
          refine ⟨?_, ih2⟩
          intro ev hev rq failed
          rcases List.mem_cons.mp hev with rfl | hev
          · exact hfwd _ _ _ _
          · exact ih1 ev hev rq failed
        · rw [ServeHTTP_fail_reroute s peer b hB request (Nat.le_of_not_lt hr) fails]
          have hd1 := s.MarkBackendStatus_dead b.URL j hd
          cases hLB : LoadBalance (s.MarkBackendStatus b.URL false) with
          | error p =>
            simp only
            refine ⟨?_, hd1⟩
            intro ev hev rq failed
            simp only [List.mem_cons, List.mem_singleton, List.not_mem_nil, or_false] at hev
            rcases hev with rfl | rfl | rfl | rfl
            · exact hfwd _ _ _ _
            · intro heq; cases heq
            · intro heq; cases heq
            · intro heq; cases heq
          | ok res =>
            obtain ⟨act, s2⟩ := res
            cases act with
            | httpError msg code =>
              simp only
              have hg := LoadBalance_httpError _ msg code s2 hLB
              have hb2 := ServerPool.GetNextPeer_backends _ _ _ hg
              refine ⟨?_, by rw [ServerPool.aliveAt_congr _ s2 hb2]; exact hd1⟩
              intro ev hev rq failed
              simp only [List.mem_cons, List.mem_singleton, List.not_mem_nil, or_false] at hev
              rcases hev with rfl | rfl | rfl | rfl
              · exact hfwd _ _ _ _
              · intro heq; cases heq
              · intro heq; cases heq
              · intro heq; cases heq
            | serveHTTP peer1 =>
              simp only
              have hg := LoadBalance_serveHTTP _ peer1 s2 hLB
              have hb2 := ServerPool.GetNextPeer_backends _ _ _ hg
              obtain ⟨_, hal1, _, _⟩ := ServerPool.GetNextPeer_some _ peer1 s2 hg
              have hp1 : peer1 ≠ j := by
                intro heq
                rw [heq, hd1] at hal1
                cases hal1
              have hd2 : s2.aliveAt j = false := by
                rw [ServerPool.aliveAt_congr _ s2 hb2]
                exact hd1
              obtain ⟨ih1, ih2⟩ := ih peer1 s2
                (request.WithValue .Attempts (GetAttemptsFromContext request + 1)) hd2 hp1
              refine ⟨?_, ih2⟩
              intro ev hev rq failed
              simp only [List.mem_cons] at hev
              rcases hev with rfl | rfl | rfl | hev
              · exact hfwd _ _ _ _
              · intro heq; cases heq
              · intro heq; cases heq
              · exact ih1 ev hev rq failed

/-- A failure handled by the reroute branch: the backend is marked down, one
re-dispatch follows, and from then on the backend is dead and the request is not
forwarded to it again. -/
theorem ServeHTTP_reroute_tail (s : ServerPool) (peer : Nat) (b : Backend)
    (hB : s.backends[peer]? = some b) (request : Request)
    (h : 3 ≤ GetRetryFromContext request) (fails : List Bool) :
    ∃ (tail : List Event) (s2 : ServerPool),
      ServeHTTP (true :: fails) peer s request =
        (Event.forward peer request true :: Event.markedDown b.URL ::
          Event.lb (request.WithValue .Attempts (GetAttemptsFromContext request + 1)) ::
          tail, s2) ∧
      s2.aliveAt peer = false ∧
      ∀ ev, ev ∈ tail → ∀ rq failed, ev ≠ Event.forward peer rq failed := by
  rw [ServeHTTP_fail_reroute s peer b hB request h fails]
  have hd1 := s.MarkBackendStatus_aliveAt peer b hB
  cases hLB : LoadBalance (s.MarkBackendStatus b.URL false) with
  | error p =>
    refine ⟨[Event.panicked p], _, rfl, hd1, ?_⟩
    intro ev hev rq failed heq
    simp only [List.mem_singleton] at hev
    subst hev
    cases heq
  | ok res =>
    obtain ⟨act, s2⟩ := res
    cases act with
    | httpError msg code =>
      have hg := LoadBalance_httpError _ msg code s2 hLB
      have hb2 := ServerPool.GetNextPeer_backends _ _ _ hg
      refine ⟨[Event.httpError code], s2, rfl, ?_, ?_⟩
      · rw [ServerPool.aliveAt_congr _ s2 hb2]
        exact hd1
      · intro ev hev rq failed heq
        simp only [List.mem_singleton] at hev
        subst hev
        cases heq
    | serveHTTP peer1 =>
      have hg := LoadBalance_serveHTTP _ peer1 s2 hLB
      have hb2 := ServerPool.GetNextPeer_backends _ _ _ hg
      obtain ⟨_, hal1, _, _⟩ := ServerPool.GetNextPeer_some _ peer1 s2 hg
      have hp1 : peer1 ≠ peer := by
        intro heq
        rw [heq, hd1] at hal1
        cases hal1
      have hd2 : s2.aliveAt peer = false := by
        rw [ServerPool.aliveAt_congr _ s2 hb2]
        exact hd1
      obtain ⟨h1, h2⟩ := ServeHTTP_avoids_dead peer fails peer1 s2
        (request.WithValue .Attempts (GetAttemptsFromContext request + 1)) hd2 hp1
      exact ⟨_, _, rfl, h2, h1⟩

/-- C11: the error handler takes the retry branch exactly when the retry count
is below 3, and a retry raises the count by exactly one and leaves the pool
alone.  Hence, for a request with retry count 0 forwarded to backend `B` whose
every forward to `B` fails: `B` is forwarded to four times, the first attempt
and three retries with retry counts 1, 2, 3; the fourth failure marks `B` down
and re-dispatches the request; from then on `B` is dead and the request is never
forwarded to `B` again, whatever happens at the other backends. -/
theorem retries_bounded_then_condemned (s : ServerPool) (B : Nat) (b : Backend)
    (request : Request) (rest : List Bool)
    (hB : s.backends[B]? = some b) (hr : GetRetryFromContext request = 0) :
    (∀ (url : String) (s0 : ServerPool) (rq : Request),
        (∃ rq1 s1, ErrorHandler url s0 rq = (.proxyServeHTTP rq1, s1)) ↔
          GetRetryFromContext rq < 3) ∧
      (∀ (url : String) (s0 : ServerPool) (rq rq1 : Request) (s1 : ServerPool),
        ErrorHandler url s0 rq = (.proxyServeHTTP rq1, s1) →
          GetRetryFromContext rq1 = GetRetryFromContext rq + 1 ∧ s1 = s0) ∧
      ∃ (r1 r2 r3 r4 : Request) (tail : List Event) (s2 : ServerPool),
        ServeHTTP (true :: true :: true :: true :: rest) B s request =
          (Event.forward B request true :: Event.forward B r1 true ::
            Event.forward B r2 true :: Event.forward B r3 true ::
            Event.markedDown b.URL :: Event.lb r4 :: tail, s2) ∧
        GetRetryFromContext r1 = 1 ∧ GetRetryFromContext r2 = 2 ∧
        GetRetryFromContext r3 = 3 ∧
        (s.MarkBackendStatus b.URL false).aliveAt B = false ∧
        s2.aliveAt B = false ∧
        ∀ ev, ev ∈ tail → ∀ rq failed, ev ≠ Event.forward B rq failed := by
  refine ⟨?_, ?_, ?_⟩
  · intro url s0 rq
    constructor
    · rintro ⟨rq1, s1, h⟩
      by_contra hc
      rw [ErrorHandler_reroute url s0 rq (Nat.le_of_not_lt hc)] at h
      cases h
    · intro h
      exact ⟨_, _, ErrorHandler_retry url s0 rq h⟩
  · intro url s0 rq rq1 s1 h
    by_cases hc : GetRetryFromContext rq < 3
    · rw [ErrorHandler_retry url s0 rq hc] at h
      simp only [Prod.mk.injEq, HandlerCall.proxyServeHTTP.injEq] at h
      obtain ⟨h1, h2⟩ := h
      subst h1
      exact ⟨GetRetryFromContext_WithValue_Retry _ _, h2.symm⟩
    · rw [ErrorHandler_reroute url s0 rq (Nat.le_of_not_lt hc)] at h
      cases h
  · have hr1 : GetRetryFromContext (request.WithValue .Retry 1) = 1 :=
      GetRetryFromContext_WithValue_Retry _ _
    have hr2 : GetRetryFromContext ((request.WithValue .Retry 1).WithValue .Retry 2) = 2 :=
      GetRetryFromContext_WithValue_Retry _ _
    have hr3 : GetRetryFromContext
        (((request.WithValue .Retry 1).WithValue .Retry 2).WithValue .Retry 3) = 3 :=
      GetRetryFromContext_WithValue_Retry _ _
    have f0 := ServeHTTP_fail_retry s B b hB request (by omega)
      (true :: true :: true :: rest)
    have f1 := ServeHTTP_fail_retry s B b hB (request.WithValue .Retry 1) (by omega)
      (true :: true :: rest)
    have f2 := ServeHTTP_fail_retry s B b hB
      ((request.WithValue .Retry 1).WithValue .Retry 2) (by omega) (true :: rest)
    rw [show GetRetryFromContext request + 1 = 1 by omega] at f0
    rw [show GetRetryFromContext (request.WithValue .Retry 1) + 1 = 2 by omega] at f1
    rw [show GetRetryFromContext ((request.WithValue .Retry 1).WithValue .Retry 2) + 1 = 3
      by omega] at f2
    obtain ⟨tail, s2, h3, hdead, htail⟩ := ServeHTTP_reroute_tail s B b hB
      (((request.WithValue .Retry 1).WithValue .Retry 2).WithValue .Retry 3)
      (by omega) rest
    refine ⟨request.WithValue .Retry 1, (request.WithValue .Retry 1).WithValue .Retry 2,
      ((request.WithValue .Retry 1).WithValue .Retry 2).WithValue .Retry 3,
      (((request.WithValue .Retry 1).WithValue .Retry 2).WithValue .Retry 3).WithValue
        .Attempts (GetAttemptsFromContext
          (((request.WithValue .Retry 1).WithValue .Retry 2).WithValue .Retry 3) + 1),
      tail, s2, ?_, hr1, hr2, hr3, s.MarkBackendStatus_aliveAt B b hB, hdead, htail⟩
    rw [f0, f1, f2, h3]

/-- Witness of C11: a fresh request forwarded to the first of two alive
backends, with every forward failing. -/
theorem retries_bounded_then_condemned_witness :
    ∃ (r1 r2 r3 r4 : Request) (tail : List Event) (s2 : ServerPool),
      ServeHTTP (true :: true :: true :: true :: [true, true]) 0
          ⟨[mkBackend "B" true 0, mkBackend "C" true 1], 0⟩ Request.fresh =
        (Event.forward 0 Request.fresh true :: Event.forward 0 r1 true ::
          Event.forward 0 r2 true :: Event.forward 0 r3 true ::
          Event.markedDown (mkBackend "B" true 0).URL :: Event.lb r4 :: tail, s2) ∧
      GetRetryFromContext r1 = 1 ∧ GetRetryFromContext r2 = 2 ∧
      GetRetryFromContext r3 = 3 ∧
      ((⟨[mkBackend "B" true 0, mkBackend "C" true 1], 0⟩ : ServerPool).MarkBackendStatus
        (mkBackend "B" true 0).URL false).aliveAt 0 = false ∧
      s2.aliveAt 0 = false ∧
      ∀ ev, ev ∈ tail → ∀ rq failed, ev ≠ Event.forward 0 rq failed :=
  (retries_bounded_then_condemned ⟨[mkBackend "B" true 0, mkBackend "C" true 1], 0⟩ 0
    (mkBackend "B" true 0) Request.fresh [true, true] (by decide) (by decide)).2.2

/-- Counterexample to C13 as stated: the error handler of backend `B` runs on
requests whose cancellation signal is set.  With retry count 0 it re-attempts
forwarding on its own proxy; with retry count 3 it marks `B` down and
re-dispatches through `lb`.  It abandons neither. -/
theorem cancelled_request_is_not_abandoned :
    ErrorHandler "B" ⟨[mkBackend "B" true 0, mkBackend "C" true 1], 0⟩ ⟨[], true⟩ =
        (.proxyServeHTTP ⟨[(.Retry, 1)], true⟩,
          ⟨[mkBackend "B" true 0, mkBackend "C" true 1], 0⟩) ∧
      ErrorHandler "B" ⟨[mkBackend "B" true 0, mkBackend "C" true 1], 0⟩
          ⟨[(.Retry, 3)], true⟩ =
        (.lb ⟨[(.Attempts, 1), (.Retry, 3)], true⟩,
          ⟨[mkBackend "B" false 0, mkBackend "C" true 1], 0⟩) := by
  decide

/-- C13, amended: the error handler does not consult the cancellation signal of
the request.  When the signal is set, the handler still re-attempts forwarding
to the same backend while the retry count is below 3, and otherwise still marks
the backend down and re-dispatches through `lb`; the request it passes on carries
the signal unchanged.  What the handler does with a request is what it does
with the same request whose signal is not set. -/
theorem cancellation_is_not_observed (serverUrl : String) (s : ServerPool)
    (request : Request) (hdone : request.done = true) :
    (GetRetryFromContext request < 3 →
        ∃ request1, ErrorHandler serverUrl s request = (.proxyServeHTTP request1, s) ∧
          request1.done = true ∧
          GetRetryFromContext request1 = GetRetryFromContext request + 1 ∧
          ErrorHandler serverUrl s { request with done := false } =
            (.proxyServeHTTP { request1 with done := false }, s)) ∧
      (3 ≤ GetRetryFromContext request →
        ∃ request1, ErrorHandler serverUrl s request =
            (.lb request1, s.MarkBackendStatus serverUrl false) ∧
          request1.done = true ∧
          GetAttemptsFromContext request1 = GetAttemptsFromContext request + 1 ∧
          ErrorHandler serverUrl s { request with done := false } =
            (.lb { request1 with done := false }, s.MarkBackendStatus serverUrl false)) := by
  have hR : GetRetryFromContext { request with done := false } = GetRetryFromContext request :=
    rfl
  have hA : GetAttemptsFromContext { request with done := false } =
      GetAttemptsFromContext request := rfl
  refine ⟨?_, ?_⟩
  · intro h
    refine ⟨_, ErrorHandler_retry serverUrl s request h, ?_,
      GetRetryFromContext_WithValue_Retry _ _, ?_⟩
    · simpa [Request.WithValue] using hdone
    · rw [ErrorHandler_retry serverUrl s _ (by rw [hR]; exact h), hR]
      rfl
  · intro h
    refine ⟨_, ErrorHandler_reroute serverUrl s request h, ?_,
      GetAttemptsFromContext_WithValue_Attempts _ _, ?_⟩
    · simpa [Request.WithValue] using hdone
    · rw [ErrorHandler_reroute serverUrl s _ (by rw [hR]; exact h), hA]
      rfl

/-- Witness of C13 (amended): a cancelled fresh request handled by the handler
of `B`. -/
theorem cancellation_is_not_observed_witness :
    ∃ request1, ErrorHandler "B" ⟨[mkBackend "B" true 0, mkBackend "C" true 1], 0⟩
          ⟨[], true⟩ =
        (.proxyServeHTTP request1, ⟨[mkBackend "B" true 0, mkBackend "C" true 1], 0⟩) ∧
      request1.done = true ∧
      GetRetryFromContext request1 = GetRetryFromContext ⟨[], true⟩ + 1 ∧
      ErrorHandler "B" ⟨[mkBackend "B" true 0, mkBackend "C" true 1], 0⟩
          { (⟨[], true⟩ : Request) with done := false } =
        (.proxyServeHTTP { request1 with done := false },
          ⟨[mkBackend "B" true 0, mkBackend "C" true 1], 0⟩) :=
  (cancellation_is_not_observed "B" ⟨[mkBackend "B" true 0, mkBackend "C" true 1], 0⟩
    ⟨[], true⟩ rfl).1 (by decide)

/-! ## Locking -/

/-- Evaluation for C12.  `SetAlive` makes the steps read lock, write, read
unlock, and run alone they amount to `Backend.SetAlive`; it takes no write lock.
With one goroutine in `SetAlive(false)` and another in `IsAlive()`, or in
`SetAlive(true)`, on the same backend and scheduled in turn, the mutex lets
every step through and the flag is written while the other goroutine holds the
mutex.  With the exclusive lock the specification asks for, that schedule cannot
happen, and no schedule of up to six steps makes a write overlap. -/
theorem SetAlive_writes_under_read_lock :
    (∀ (b : Backend) (v : Bool),
        (Backend.SetAlive.steps v).foldl (fun b1 st => st.apply b1) b = b.SetAlive v) ∧
      (∀ b : Backend,
        Backend.IsAlive.steps.foldl (fun b1 st => st.apply b1) b = b.IsAlive.2) ∧
      (∀ v : Bool, Step.Lock ∉ Backend.SetAlive.steps v) ∧
      interleave [false, true, false, true, false, true] ⟨0, false⟩
        (Goroutine.start (Backend.SetAlive.steps false))
        (Goroutine.start Backend.IsAlive.steps) = some true ∧
      interleave [false, true, false, true, false, true] ⟨0, false⟩
        (Goroutine.start (Backend.SetAlive.steps false))
        (Goroutine.start (Backend.SetAlive.steps true)) = some true ∧
      interleave [false, true, false, true, false, true] ⟨0, false⟩
        (Goroutine.start (exclusiveSetAliveSteps false))
        (Goroutine.start Backend.IsAlive.steps) = none ∧
      (∀ n, n < 7 → ∀ sch, sch ∈ schedules n →
        interleave sch ⟨0, false⟩ (Goroutine.start (exclusiveSetAliveSteps false))
            (Goroutine.start Backend.IsAlive.steps) ≠ some true ∧
        interleave sch ⟨0, false⟩ (Goroutine.start (exclusiveSetAliveSteps false))
            (Goroutine.start (exclusiveSetAliveSteps true)) ≠ some true) := by
  refine ⟨?_, ?_, ?_, by decide, by decide, by decide, by decide⟩
  · intro b v
    rfl
  · intro b
    rfl
  · intro v
    simp [Backend.SetAlive.steps]

end GoBalancer
